import Mathlib

/-!
# AVR fast PWM (`Marlin/src/HAL/AVR/fast_pwm.cpp`)

A shallow embedding of `get_pwm_timer`, `set_pwm_frequency` and `set_pwm_duty`
in the build with `NEEDS_HARDWARE_PWM` (the only build in which the `Timer`
structure and the first two functions exist).

Integer model.  The file is compiled for AVR only (`#ifdef __AVR__`), where
`int` is 16 bits wide and `uint16_t` is `unsigned int`:

* an arithmetic expression with a `uint16_t` operand and an `int` (or
  `uint16_t`) operand is evaluated in `unsigned int`, i.e. modulo `2^16`
  (`u16`);
* initialising an `int` from a wider or an unsigned value keeps the low 16
  bits, read in two's complement (`int16`);
* `F_CPU` is an integer literal; a division whose left operand is `F_CPU` is
  carried out in the (wider) type of the literal and is exact;
* a division by zero and a store or load through a null handle are undefined
  behaviour; they are the two faults of the embedding.

Values of integer variables are `Int`; register contents are `Nat`.

Register model.  A control register is an 8-bit cell, the registers `OCRnx`
and `ICRn` of timers 3, 4 and 5 are 16-bit cells.  The compare registers of
timer 2 are 8-bit cells that the descriptors reach through a cast to
`uint16_t*`; a store or load through such a handle is a 16-bit access that
also covers the cell at the next address (`OCR2B` after `OCR2A`).
-/

namespace FastPWM

/-! ## Faults -/

/-- The two ways in which the embedded code leaves defined behaviour. -/
inductive Fault where
  | divByZero
  | nullDeref
  deriving DecidableEq, Repr

deriving instance DecidableEq for Except

/-! ## Integer conversions of the AVR target -/

/-- Conversion to `unsigned int` / `uint16_t`: the value modulo `2^16`. -/
def u16 (x : Int) : Int := x % 65536

/-- Conversion to the 16-bit `int`: the low 16 bits in two's complement. -/
def int16 (x : Int) : Int :=
  if x % 65536 < 32768 then x % 65536 else x % 65536 - 65536

/-- Integer division as the C code evaluates it on non-negative operands; a
zero divisor is a fault. -/
def cdiv (a b : Int) : Except Fault Int :=
  if b = 0 then .error .divByZero else .ok (a / b)

/-- Modelled from the spec: the `ABS` macro is not under src/.  The spec speaks
of the "absolute deviation", so `ABS(v)` is the absolute value
`v >= 0 ? v : -v` of the value its operand has in its C type; an operand of
unsigned type is never negative and is returned as it is. -/
def ABS (v : Int) : Int := if v ≥ 0 then v else -v

/-- Modelled from the spec: the `LIMIT` macro is not under src/.  The spec says
the value is "clamped into `[1, size]`": `LIMIT(v, n1, n2)` replaces `v` by `n1`
when it is below `n1` and otherwise by `n2` when it is above `n2`. -/
def LIMIT (v n1 n2 : Int) : Int :=
  if n1 > v then n1 else if n2 < v then n2 else v

/-! ## Registers, timer descriptors and the hardware state -/

/-- The timer registers named in `get_pwm_timer`, and the two bytes of the
register file that lie directly after `OCR2` and after `OCR2B` (`afterOCR2`,
`afterOCR2B`; neither is a register named in the source). -/
inductive Reg where
  | TCCR2 | OCR2 | afterOCR2
  | TCCR2A | TCCR2B | OCR2A | OCR2B | afterOCR2B
  | TCCR3A | TCCR3B | TCCR3C | OCR3A | OCR3B | OCR3C | ICR3
  | TCCR4A | TCCR4B | TCCR4C | OCR4A | OCR4B | OCR4C | ICR4
  | TCCR5A | TCCR5B | TCCR5C | OCR5A | OCR5B | OCR5C | ICR5
  deriving DecidableEq, Repr

/-- The values of `digitalPinToTimer(pin)` that appear as `case` labels in
`get_pwm_timer`; `other` stands for every remaining value (`NOT_ON_TIMER`,
`TIMER1C`, ...), none of which has a label in any configuration. -/
inductive TimerOut where
  | TIMER0A | TIMER0B | TIMER1A | TIMER1B
  | TIMER2 | TIMER2A | TIMER2B
  | TIMER3A | TIMER3B | TIMER3C
  | TIMER4A | TIMER4B | TIMER4C
  | TIMER5A | TIMER5B | TIMER5C
  | other (code : Nat)
  deriving DecidableEq, Repr

/-- The compile-time configuration, all of it declared outside src/ and taken
as a parameter: the clock `F_CPU`, the preprocessor symbols tested by the
source, the pin table `digitalPinToTimer` of the board, and the enumerators of
`HAL.h` that the source names (waveform generation modes and the compare
output mode `COM_CLEAR_SET`; each fits the `uint8_t` it is stored in). -/
structure Chip where
  F_CPU : Nat
  TCCR0A : Bool
  AVR_AT90USB1286_FAMILY : Bool
  TCCR1A : Bool
  HAS_TCCR2 : Bool
  TCCR2A : Bool
  USE_OCR2A_AS_TOP : Bool
  OCR3C : Bool
  OCR3B : Bool
  TCCR4A : Bool
  TCCR5A : Bool
  digitalPinToTimer : Int → TimerOut
  WGM_PWM_PC_ICRn : Nat
  WGM_FAST_PWM_ICRn : Nat
  WGM2_FAST_PWM : Nat
  WGM2_PWM_PC_OCR2A : Nat
  WGM2_FAST_PWM_OCR2A : Nat
  COM_CLEAR_SET : Nat

/-- The `Timer` structure of lines 29-35; a null pointer is `none`. -/
structure Timer where
  TCCRnQ : List (Option Reg)
  OCRnQ : List (Option Reg)
  ICRn : Option Reg
  n : Nat
  q : Nat
  deriving DecidableEq, Repr

/-- The descriptor of lines 166-171. -/
def noTimer : Timer :=
  ⟨[none, none, none], [none, none, none], none, 0, 0⟩

/-- The `switch` of `get_pwm_timer` (lines 64-164) on the value `t` of
`digitalPinToTimer(pin)`, followed by lines 166-172.  A value whose `case`
label is compiled out, and a value whose label is followed by `break`, both
leave the `switch` and reach line 166.  The argument `q` of a descriptor is the
number of `++q` passed on the way to the `return`. -/
def timerOfOutput (c : Chip) (t : TimerOut) : Timer :=
  match t with
  | .TIMER0A => noTimer
  | .TIMER0B => noTimer
  | .TIMER1A => noTimer
  | .TIMER1B => noTimer
  | .TIMER2 =>
    if c.HAS_TCCR2 then
      ⟨[some .TCCR2, none, none], [some .OCR2, none, none], none, 2, 0⟩
    else noTimer
  | .TIMER2A =>
    if ¬ c.HAS_TCCR2 ∧ c.TCCR2A then
      if c.USE_OCR2A_AS_TOP then noTimer
      else ⟨[some .TCCR2A, some .TCCR2B, none], [some .OCR2A, some .OCR2B, none], none, 2, 0⟩
    else noTimer
  | .TIMER2B =>
    if ¬ c.HAS_TCCR2 ∧ c.TCCR2A then
      ⟨[some .TCCR2A, some .TCCR2B, none], [some .OCR2A, some .OCR2B, none], none, 2, 1⟩
    else noTimer
  | .TIMER3C =>
    if c.OCR3C then
      ⟨[some .TCCR3A, some .TCCR3B, some .TCCR3C], [some .OCR3A, some .OCR3B, some .OCR3C],
        some .ICR3, 3, 2⟩
    else noTimer
  | .TIMER3B =>
    if c.OCR3C then
      ⟨[some .TCCR3A, some .TCCR3B, some .TCCR3C], [some .OCR3A, some .OCR3B, some .OCR3C],
        some .ICR3, 3, 1⟩
    else if c.OCR3B then
      ⟨[some .TCCR3A, some .TCCR3B, none], [some .OCR3A, some .OCR3B, none], some .ICR3, 3, 1⟩
    else noTimer
  | .TIMER3A =>
    if c.OCR3C then
      ⟨[some .TCCR3A, some .TCCR3B, some .TCCR3C], [some .OCR3A, some .OCR3B, some .OCR3C],
        some .ICR3, 3, 0⟩
    else if c.OCR3B then
      ⟨[some .TCCR3A, some .TCCR3B, none], [some .OCR3A, some .OCR3B, none], some .ICR3, 3, 0⟩
    else noTimer
  | .TIMER4C =>
    if c.TCCR4A then
      ⟨[some .TCCR4A, some .TCCR4B, some .TCCR4C], [some .OCR4A, some .OCR4B, some .OCR4C],
        some .ICR4, 4, 2⟩
    else noTimer
  | .TIMER4B =>
    if c.TCCR4A then
      ⟨[some .TCCR4A, some .TCCR4B, some .TCCR4C], [some .OCR4A, some .OCR4B, some .OCR4C],
        some .ICR4, 4, 1⟩
    else noTimer
  | .TIMER4A =>
    if c.TCCR4A then
      ⟨[some .TCCR4A, some .TCCR4B, some .TCCR4C], [some .OCR4A, some .OCR4B, some .OCR4C],
        some .ICR4, 4, 0⟩
    else noTimer
  | .TIMER5C =>
    if c.TCCR5A then
      ⟨[some .TCCR5A, some .TCCR5B, some .TCCR5C], [some .OCR5A, some .OCR5B, some .OCR5C],
        some .ICR5, 5, 2⟩
    else noTimer
  | .TIMER5B =>
    if c.TCCR5A then
      ⟨[some .TCCR5A, some .TCCR5B, some .TCCR5C], [some .OCR5A, some .OCR5B, some .OCR5C],
        some .ICR5, 5, 1⟩
    else noTimer
  | .TIMER5A =>
    if c.TCCR5A then
      ⟨[some .TCCR5A, some .TCCR5B, some .TCCR5C], [some .OCR5A, some .OCR5B, some .OCR5C],
        some .ICR5, 5, 0⟩
    else noTimer
  | .other _ => noTimer

/-- The function `get_pwm_timer` (lines 61-173). -/
def get_pwm_timer (c : Chip) (pin : Int) : Timer :=
  timerOfOutput c (c.digitalPinToTimer pin)

/-- The state the functions act on: the contents of the timer registers and
the calls of the external `digitalWrite(pin, level)` made so far, latest
first. -/
structure HW where
  reg : Reg → Nat
  digitalWrites : List (Int × Bool)

/-- A store to a register. -/
def HW.store (s : HW) (r : Reg) (v : Nat) : HW :=
  { s with reg := Function.update s.reg r v }

/-- A load through a `volatile uint8_t*`. -/
def HW.load8 (s : HW) (r : Reg) : Nat := s.reg r % 256

/-- The register that holds the second (high) byte of a 16-bit access made at
the address of `r`.  The compare registers of timer 2 are 8 bits wide and are
reached through the casts `(uint16_t*)&OCR2`, `(uint16_t*)&OCR2A`,
`(uint16_t*)&OCR2B` of lines 80, 92 and 103, so an access through these handles
also covers the byte at the next address: `OCR2B` lies directly after `OCR2A`,
and the bytes after `OCR2` and `OCR2B` are `afterOCR2` and `afterOCR2B` (the
addresses are those of the device header, which is not under src/).  The
registers `OCRnx` and `ICRn` of timers 3, 4 and 5 are 16 bits wide, each one
cell of the state: `none`. -/
def Reg.highByte : Reg → Option Reg
  | .OCR2 => some .afterOCR2
  | .OCR2A => some .OCR2B
  | .OCR2B => some .afterOCR2B
  | _ => none

/-- A store of the 16-bit value `v` through a `volatile uint16_t*`: a 16-bit
register receives `v`; at an 8-bit register the low byte goes to the register
and the high byte to the register after it. -/
def HW.store16 (s : HW) (r : Reg) (v : Nat) : HW :=
  match r.highByte with
  | some r' => (s.store r (v % 256)).store r' (v / 256 % 256)
  | none => s.store r v

/-- A load through a `volatile uint16_t*`: the contents of a 16-bit register;
at an 8-bit register the low byte is the register and the high byte the
register after it. -/
def HW.load16 (s : HW) (r : Reg) : Nat :=
  match r.highByte with
  | some r' => s.reg r % 256 + 256 * (s.reg r' % 256)
  | none => s.reg r % 65536

/-- The external `digitalWrite(pin, level)`, recorded as an event. -/
def digitalWrite (pin : Int) (level : Bool) (s : HW) : HW :=
  { s with digitalWrites := (pin, level) :: s.digitalWrites }

/-- Dereferencing a handle: a null handle is a fault. -/
def deref (h : Option Reg) : Except Fault Reg :=
  match h with
  | some r => .ok r
  | none => .error .nullDeref

/-- Element `i` of a handle array of the `Timer` structure (`i ≤ 2` at every
use). -/
def slot : List (Option Reg) → Nat → Option Reg
  | [], _ => none
  | h :: _, 0 => h
  | _ :: t, i + 1 => slot t i

/-- Dereferencing element `i` of a handle array of the `Timer` structure. -/
def handle (a : List (Option Reg)) (i : Nat) : Except Fault Reg :=
  deref (slot a i)

/-- The operand `~m` of an `int` expression, as a 16-bit pattern. -/
def not16 (m : Nat) : Nat := 0xFFFF ^^^ m

/-- The value assigned to `*(TCCRnQ)[0]` on line 39, from the value `x` read
from the register: bits 0..1 are replaced by `V & 3`.  The expression is an
`int`; the store to the `uint8_t` register keeps its low byte. -/
def wgmLow (V x : Nat) : Nat :=
  ((x &&& not16 (0x3 <<< 0)) ||| ((V &&& 0x3) <<< 0)) % 256

/-- The value assigned to `*(TCCRnQ)[1]` on line 40: bits 3..4 are replaced by
`(V >> 2) & 3`. -/
def wgmHigh (V x : Nat) : Nat :=
  ((x &&& not16 (0x3 <<< 3)) ||| (((V >>> 2) &&& 0x3) <<< 3)) % 256

/-- The value assigned to `*(TCCRnQ)[1]` on line 44: bits 0..2 are replaced by
`V & 7`. -/
def csBits (V x : Nat) : Nat :=
  ((x &&& not16 (0x7 <<< 0)) ||| ((V &&& 0x7) <<< 0)) % 256

/-- The value assigned to `*(TCCRnQ)[0]` on line 47: the two bits at position
`6 - 2 * Q` are cleared and `V << (6 - 2 * Q)` is or-ed in. -/
def comBits (Q V x : Nat) : Nat :=
  ((x &&& not16 (0x3 <<< (6 - 2 * Q))) ||| (V <<< (6 - 2 * Q))) % 256

/-- The macro `_SET_WGMnQ(TCCRnQ, V)` (lines 38-41). -/
def _SET_WGMnQ (TCCRnQ : List (Option Reg)) (V : Nat) (s : HW) : Except Fault HW := do
  let r0 ← handle TCCRnQ 0
  let s := s.store r0 (wgmLow V (s.load8 r0))
  let r1 ← handle TCCRnQ 1
  pure (s.store r1 (wgmHigh V (s.load8 r1)))

/-- The macro `_SET_CSn(TCCRnQ, V)` (line 44). -/
def _SET_CSn (TCCRnQ : List (Option Reg)) (V : Nat) (s : HW) : Except Fault HW := do
  let r1 ← handle TCCRnQ 1
  pure (s.store r1 (csBits V (s.load8 r1)))

/-- The macro `_SET_COMnQ(TCCRnQ, Q, V)` (line 47); `Q` is at most 3 at every
call. -/
def _SET_COMnQ (TCCRnQ : List (Option Reg)) (Q V : Nat) (s : HW) : Except Fault HW := do
  let r0 ← handle TCCRnQ 0
  pure (s.store r0 (comBits Q V (s.load8 r0)))

/-- The value `int(V) & 0xFFFF` of lines 50 and 53: `0xFFFF` is an
`unsigned int`, so the `int` operand is converted to `unsigned int` before the
mask is applied. -/
def store16 (V : Int) : Nat := (u16 V).toNat &&& 0xFFFF

/-- The macro `_SET_OCRnQ(OCRnQ, Q, V)` (line 50): a 16-bit store through the
`volatile uint16_t*` handle `OCRnQ[Q]`. -/
def _SET_OCRnQ (OCRnQ : List (Option Reg)) (Q : Nat) (V : Int) (s : HW) : Except Fault HW := do
  let r ← handle OCRnQ Q
  pure (s.store16 r (store16 V))

/-- The macro `_SET_ICRn(ICRn, V)` (line 53): a 16-bit store through the
`volatile uint16_t*` handle `ICRn`. -/
def _SET_ICRn (ICRn : Option Reg) (V : Int) (s : HW) : Except Fault HW := do
  let r ← deref ICRn
  pure (s.store16 r (store16 V))

/-! ## The frequency search of `set_pwm_frequency` (lines 178-242) -/

/-- The table `prescaler[]` of line 188. -/
def prescaler : List Int := [0, 1, 8, 32, 64, 128, 256, 1024]

/-- Element `prescaler[i]`; the loop only uses `1 ≤ i < 8`. -/
def prescalerAt (i : Nat) : Int := prescaler.getD i 0

/-- The variable `size` of lines 178-179. -/
def size (n : Nat) : Int := if n = 2 then 255 else 65535

/-- The variables that survive an iteration of the loop: the best frequency
`f`, and the `res`, `j`, `wgm` that go with it. -/
structure Best where
  f : Int
  res : Int
  j : Nat
  wgm : Nat
  deriving DecidableEq, Repr

/-- The two candidate resolutions of a loop iteration after `LIMIT`, and the
two frequencies computed from them. -/
structure Cand where
  res_temp_fast : Int
  res_temp_phase_correct : Int
  f_temp_fast : Int
  f_temp_phase_correct : Int
  deriving DecidableEq, Repr

/-- Lines 196-198 and 204-206: `rtf`, `rtf - 1`, `rtf / 2`.
`prescaler[i] * f_desired` is a product of two `uint16_t`; `rtf` is a
`uint16_t`; `rtf - 1` is evaluated in `unsigned int` and stored in a
`uint16_t`. -/
def rtfPair (c : Chip) (f_desired : Int) (i : Nat) : Except Fault (Int × Int) := do
  let q ← cdiv (c.F_CPU : Int) (u16 (prescalerAt i * f_desired))
  let rtf := u16 q
  pure (u16 (rtf - 1), rtf / 2)

/-- Lines 192-210: the candidate resolutions of iteration `i` after `LIMIT`, or
`none` when the iteration is skipped by `continue`. -/
def resTemp (c : Chip) (n : Nat) (f_desired : Int) (i : Nat) :
    Except Fault (Option (Int × Int)) := do
  if n = 2 then
    if c.USE_OCR2A_AS_TOP then
      let (rf, rp) ← rtfPair c f_desired i
      pure (some (LIMIT rf 1 (size n), LIMIT rp 1 (size n)))
    else
      pure (some (LIMIT 255 1 (size n), LIMIT 255 1 (size n)))
  else
    if i = 3 ∨ i = 5 then pure none
    else
      let (rf, rp) ← rtfPair c f_desired i
      pure (some (LIMIT rf 1 (size n), LIMIT rp 1 (size n)))

/-- Lines 192-213: the candidates of iteration `i` with their frequencies.
`prescaler[i] * (1 + res_temp_fast)` and `2 * prescaler[i] * res_temp_phase_correct`
are evaluated in `unsigned int`; the quotients initialise `const int`s. -/
def candAt (c : Chip) (n : Nat) (f_desired : Int) (i : Nat) :
    Except Fault (Option Cand) := do
  match ← resTemp c n f_desired i with
  | none => pure none
  | some (rf, rp) =>
    let qf ← cdiv (c.F_CPU : Int) (u16 (prescalerAt i * u16 (1 + rf)))
    let qp ← cdiv (c.F_CPU : Int) (u16 (u16 (2 * prescalerAt i) * rp))
    pure (some ⟨rf, rp, int16 qf, int16 qp⟩)

/-- The value of `ABS(x - f_desired)` stored in a `const int` (lines 214-216):
`x` is an `int` and `f_desired` a `uint16_t`, so the difference is evaluated in
`unsigned int`; `ABS` is applied to that value and the result initialises an
`int`. -/
def diffOf (x f_desired : Int) : Int := int16 (ABS (u16 (x - f_desired)))

/-- Waveform generation mode assigned when the FastPWM candidate is adopted
(lines 225-228). -/
def wgmFast (c : Chip) (n : Nat) : Nat :=
  if n = 2 then (if c.USE_OCR2A_AS_TOP then c.WGM2_FAST_PWM_OCR2A else c.WGM2_FAST_PWM)
  else c.WGM_FAST_PWM_ICRn

/-- Waveform generation mode assigned when the PhaseCorrect candidate is
adopted (lines 236-239). -/
def wgmPhase (c : Chip) (n : Nat) : Nat :=
  if n = 2 then (if c.USE_OCR2A_AS_TOP then c.WGM2_PWM_PC_OCR2A else c.WGM2_FAST_PWM)
  else c.WGM_PWM_PC_ICRn

/-- Lines 214-240: the comparison of the two candidates with the current
best. -/
def adopt (c : Chip) (n : Nat) (f_desired : Int) (i : Nat) (b : Best) (cd : Cand) : Best :=
  let f_diff := diffOf b.f f_desired
  let f_fast_diff := diffOf cd.f_temp_fast f_desired
  let f_phase_diff := diffOf cd.f_temp_phase_correct f_desired
  if f_fast_diff < f_diff ∧ f_fast_diff ≤ f_phase_diff then
    ⟨cd.f_temp_fast, cd.res_temp_fast, i, wgmFast c n⟩
  else if f_phase_diff < f_diff then
    ⟨cd.f_temp_phase_correct, cd.res_temp_phase_correct, i, wgmPhase c n⟩
  else b

/-- One iteration of the loop of lines 191-241. -/
def loopBody (c : Chip) (n : Nat) (f_desired : Int) (b : Best) (i : Nat) :
    Except Fault Best := do
  match ← candAt c n f_desired i with
  | none => pure b
  | some cd => pure (adopt c n f_desired i b cd)

/-- Modelled from the spec: the `LOOP_S_L_N` macro is not under src/.  The spec
says "for each prescaler index `i` from 1 to the last valid index":
`LOOP_S_L_N(i, 1, 8)` visits `i = 1, ..., 7` in order. -/
def loopIndices : List Nat := [1, 2, 3, 4, 5, 6, 7]

/-- Line 187: `int f = (F_CPU) / (2 * 1024 * size) + 1`.  `2 * 1024` is an
`int`, its product with the `uint16_t` `size` is an `unsigned int`. -/
def seed (c : Chip) (n : Nat) : Except Fault Int := do
  let q ← cdiv (c.F_CPU : Int) (u16 (2 * 1024 * size n))
  pure (int16 (q + 1))

/-- Lines 181-242: the values of `f`, `res`, `j`, `wgm` with which the register
writes are reached.  For `f_desired = 0` the variable `f` does not exist; the
field is `0` then. -/
def search (c : Chip) (n : Nat) (f_desired : Nat) : Except Fault Best :=
  if f_desired ≠ 0 then do
    let f ← seed c n
    loopIndices.foldlM (loopBody c n f_desired) ⟨f, 255, 0, 1⟩
  else
    pure ⟨0, 255, 0, 1⟩

/-! ## `set_pwm_frequency` and `set_pwm_duty` -/

/-- Lines 243-250: the register writes that end `set_pwm_frequency`. -/
def program (c : Chip) (timer : Timer) (b : Best) (s : HW) : Except Fault HW := do
  let s ← _SET_WGMnQ timer.TCCRnQ b.wgm s
  let s ← _SET_CSn timer.TCCRnQ b.j s
  if timer.n = 2 then
    if c.USE_OCR2A_AS_TOP then _SET_OCRnQ timer.OCRnQ 0 b.res s else pure s
  else
    _SET_ICRn timer.ICRn b.res s

/-- The function `set_pwm_frequency` (lines 175-251). -/
def set_pwm_frequency (c : Chip) (pin : Int) (f_desired : Nat) (s : HW) : Except Fault HW :=
  let timer := get_pwm_timer c pin
  if timer.n = 0 then pure s
  else do
    let b ← search c timer.n f_desired
    program c timer b s

/-- The value `uint16_t(uint32_t(v) * top / v_size)` of line 270. -/
def scaleDuty (v top v_size : Nat) : Except Fault Nat :=
  if v_size = 0 then .error .divByZero
  else .ok (((v * top) % 4294967296 / v_size) % 65536)

/-- Line 269: the TOP value read back from the timer, by a 16-bit load through
`OCRnQ[0]` or `ICRn` (on timer 2 with `USE_OCR2A_AS_TOP` the load at `OCR2A`
takes `OCR2B` as its high byte). -/
def readTop (c : Chip) (timer : Timer) (s : HW) : Except Fault Nat :=
  if timer.n = 2 then
    if c.USE_OCR2A_AS_TOP then do
      let r ← handle timer.OCRnQ 0
      pure (s.load16 r)
    else pure 255
  else do
    let r ← deref timer.ICRn
    pure (s.load16 r)

/-- The function `set_pwm_duty` (lines 255-280) in the build with
`NEEDS_HARDWARE_PWM`. -/
def set_pwm_duty (c : Chip) (pin : Int) (v v_size : Nat) (invert : Bool) (s : HW) :
    Except Fault HW :=
  if v = 0 then pure (digitalWrite pin invert s)
  else if v = v_size then pure (digitalWrite pin (!invert) s)
  else
    let timer := get_pwm_timer c pin
    if timer.n = 0 then pure s
    else do
      let s ← _SET_COMnQ timer.TCCRnQ
        (timer.q + (if c.HAS_TCCR2 then (if timer.q = 2 then 1 else 0) else 0))
        (c.COM_CLEAR_SET + (if invert then 1 else 0)) s
      let top ← readTop c timer s
      let d ← scaleDuty v top v_size
      _SET_OCRnQ timer.OCRnQ timer.q d s

/-! ## Auxiliary definitions used in the statements -/

/-- The values of `digitalPinToTimer` whose `case` label is compiled in under
configuration `c` and leads to the `return` of a descriptor. -/
def hasTimerCase (c : Chip) : TimerOut → Bool
  | .TIMER2 => c.HAS_TCCR2
  | .TIMER2A => !c.HAS_TCCR2 && c.TCCR2A && !c.USE_OCR2A_AS_TOP
  | .TIMER2B => !c.HAS_TCCR2 && c.TCCR2A
  | .TIMER3A => c.OCR3C || c.OCR3B
  | .TIMER3B => c.OCR3C || c.OCR3B
  | .TIMER3C => c.OCR3C
  | .TIMER4A => c.TCCR4A
  | .TIMER4B => c.TCCR4A
  | .TIMER4C => c.TCCR4A
  | .TIMER5A => c.TCCR5A
  | .TIMER5B => c.TCCR5A
  | .TIMER5C => c.TCCR5A
  | _ => false

/-- The handle through which lines 246-250 store TOP: `none` when no store is
made (timer 2 without `USE_OCR2A_AS_TOP`), otherwise the handle `OCRnQ[0]` or
`ICRn`, which may be null. -/
def topHandle (c : Chip) (timer : Timer) : Option (Option Reg) :=
  if timer.n = 2 then (if c.USE_OCR2A_AS_TOP then some (slot timer.OCRnQ 0) else none)
  else some timer.ICRn

/-- The FastPWM candidate resolution as the spec words it:
`clockHz / (prescaler[i] * desiredFrequencyHz) - 1` over the integers, clamped
into `[1, size]`. -/
def specResFast (F p f size : Int) : Int := LIMIT (F / (p * f) - 1) 1 size

/-- The PhaseCorrectPWM candidate resolution as the spec words it:
`clockHz / (prescaler[i] * desiredFrequencyHz) / 2` over the integers, clamped
into `[1, size]`. -/
def specResPhase (F p f size : Int) : Int := LIMIT (F / (p * f) / 2) 1 size

/-- The absolute deviation of an achieved frequency from the desired one, as
the spec words it, over the integers. -/
def specDeviation (achieved f : Int) : Int := ABS (achieved - f)

/-- A sample pin table (the PWM pins of an ATmega2560 board), used to
instantiate the statements. -/
def megaPins (pin : Int) : TimerOut :=
  if pin = 2 then .TIMER3B else if pin = 3 then .TIMER3C
  else if pin = 4 then .TIMER0B else if pin = 5 then .TIMER3A
  else if pin = 6 then .TIMER4A else if pin = 7 then .TIMER4B
  else if pin = 8 then .TIMER4C else if pin = 9 then .TIMER2B
  else if pin = 10 then .TIMER2A else if pin = 11 then .TIMER1A
  else if pin = 12 then .TIMER1B else if pin = 13 then .TIMER0A
  else if pin = 44 then .TIMER5C else if pin = 45 then .TIMER5B
  else if pin = 46 then .TIMER5A else .other 0

/-- A sample configuration: a 16 MHz ATmega2560 (`TCCR2A`, `OCR3C`, `TCCR4A`,
`TCCR5A` defined, `USE_OCR2A_AS_TOP` disabled).  The enumerators have the
values of the hardware encodings of the `WGMn3:0`, `WGM22:0` and `COMnx1:0` bit
fields. -/
def mega : Chip :=
  { F_CPU := 16000000, TCCR0A := true, AVR_AT90USB1286_FAMILY := false, TCCR1A := true,
    HAS_TCCR2 := false, TCCR2A := true, USE_OCR2A_AS_TOP := false,
    OCR3C := true, OCR3B := true, TCCR4A := true, TCCR5A := true,
    digitalPinToTimer := megaPins,
    WGM_PWM_PC_ICRn := 10, WGM_FAST_PWM_ICRn := 14, WGM2_FAST_PWM := 3,
    WGM2_PWM_PC_OCR2A := 5, WGM2_FAST_PWM_OCR2A := 7, COM_CLEAR_SET := 2 }

/-- The sample configuration with `USE_OCR2A_AS_TOP` enabled. -/
def megaTop : Chip := { mega with USE_OCR2A_AS_TOP := true }

/-- The sample configuration clocked at 2 MHz. -/
def mega2MHz : Chip := { mega with F_CPU := 2000000 }

/-- A sample hardware state: all registers zero, no `digitalWrite` yet. -/
def hw0 : HW := ⟨fun _ => 0, []⟩

/-- The timer number that the name of a timer output carries. -/
def timerNumber : TimerOut → Nat
  | .TIMER0A => 0 | .TIMER0B => 0
  | .TIMER1A => 1 | .TIMER1B => 1
  | .TIMER2 => 2 | .TIMER2A => 2 | .TIMER2B => 2
  | .TIMER3A => 3 | .TIMER3B => 3 | .TIMER3C => 3
  | .TIMER4A => 4 | .TIMER4B => 4 | .TIMER4C => 4
  | .TIMER5A => 5 | .TIMER5B => 5 | .TIMER5C => 5
  | .other _ => 0

/-- The index of the output letter that the name of a timer output carries
(A is 0, B is 1, C is 2); the single output `TIMER2` has index 0. -/
def letterIndex : TimerOut → Nat
  | .TIMER0B => 1 | .TIMER1B => 1 | .TIMER2B => 1
  | .TIMER3B => 1 | .TIMER4B => 1 | .TIMER5B => 1
  | .TIMER3C => 2 | .TIMER4C => 2 | .TIMER5C => 2
  | _ => 0

/-- The index `Q` that line 268 passes to `_SET_COMnQ` for a descriptor:
`timer.q`, plus `(timer.q == 2)` when `HAS_TCCR2` is defined. -/
def comIndex (c : Chip) (timer : Timer) : Nat :=
  timer.q + (if c.HAS_TCCR2 then (if timer.q = 2 then 1 else 0) else 0)

/-- A sample pin table for a chip with a single `TCCR2` register: one pin on
`TIMER2`, and the three outputs of timer 3. -/
def m128Pins (pin : Int) : TimerOut :=
  if pin = 15 then .TIMER2 else if pin = 3 then .TIMER3A
  else if pin = 4 then .TIMER3B else if pin = 5 then .TIMER3C
  else .other 0

/-- A sample configuration with `HAS_TCCR2` (a 16 MHz chip of the ATmega128
kind: a single `TCCR2`, no `TCCR2A`, timer 3 with `OCR3C`, no timers 4 and
5). -/
def m128 : Chip :=
  { mega with HAS_TCCR2 := true, TCCR2A := false, TCCR4A := false, TCCR5A := false,
              digitalPinToTimer := m128Pins }

/-! ## Sentinel descriptor -/

/-- C3 (sentinel propagation): on a pin whose descriptor has timer number 0,
`set_pwm_frequency` (for every frequency) and the non-boundary path of
`set_pwm_duty` return the hardware state they were given: no timer register is
changed and no `digitalWrite` is performed. -/
theorem sentinel_propagation (c : Chip) (pin : Int) (s : HW)
    (h : (get_pwm_timer c pin).n = 0) :
    (∀ f : Nat, set_pwm_frequency c pin f s = .ok s) ∧
    (∀ (v v_size : Nat) (invert : Bool), v ≠ 0 → v ≠ v_size →
      set_pwm_duty c pin v v_size invert s = .ok s) := by
  constructor
  · intro f
    simp [set_pwm_frequency, h, pure, Except.pure]
  · intro v v_size invert hv hvs
    simp [set_pwm_duty, h, hv, hvs, pure, Except.pure]

/-- Instance of C3: pin 13 of the sample board is on the protected `TIMER0A`. -/
theorem sentinel_propagation_witness :
    (get_pwm_timer mega 13).n = 0 ∧
    set_pwm_frequency mega 13 1000 hw0 = .ok hw0 ∧
    set_pwm_duty mega 13 100 255 false hw0 = .ok hw0 :=
  ⟨by decide, (sentinel_propagation mega 13 hw0 (by decide)).1 1000,
    (sentinel_propagation mega 13 hw0 (by decide)).2 100 255 false (by decide) (by decide)⟩

/-- C4 (resolver sentinel): `get_pwm_timer` returns the sentinel descriptor
(`n = 0`, `q = 0`, all handles null) for the protected outputs `TIMER0A`,
`TIMER0B`, `TIMER1A`, `TIMER1B`, for `TIMER2A` when `OCR2A` is used as TOP, and
for every value without a compiled-in descriptor case; and whenever the
returned descriptor has `n = 0`, its three `TCCRnQ` handles, its three `OCRnQ`
handles and `ICRn` are null. -/
theorem resolver_sentinel (c : Chip) (pin : Int) :
    (c.digitalPinToTimer pin = .TIMER0A ∨ c.digitalPinToTimer pin = .TIMER0B ∨
      c.digitalPinToTimer pin = .TIMER1A ∨ c.digitalPinToTimer pin = .TIMER1B →
        get_pwm_timer c pin = noTimer) ∧
    (c.USE_OCR2A_AS_TOP = true → c.digitalPinToTimer pin = .TIMER2A →
        get_pwm_timer c pin = noTimer) ∧
    (hasTimerCase c (c.digitalPinToTimer pin) = false → get_pwm_timer c pin = noTimer) ∧
    ((get_pwm_timer c pin).n = 0 →
        (get_pwm_timer c pin).TCCRnQ = [none, none, none] ∧
        (get_pwm_timer c pin).OCRnQ = [none, none, none] ∧
        (get_pwm_timer c pin).ICRn = none) := by
  refine ⟨?_, ?_, ?_, ?_⟩
  · rintro (h | h | h | h) <;> simp [get_pwm_timer, timerOfOutput, h]
  · intro hu h
    simp [get_pwm_timer, timerOfOutput, h, hu]
  · intro h
    unfold get_pwm_timer
    cases ht : c.digitalPinToTimer pin <;> rw [ht] at h <;>
      simp_all [timerOfOutput, hasTimerCase]
  · unfold get_pwm_timer
    cases c.digitalPinToTimer pin <;> simp only [timerOfOutput] <;>
      (try split_ifs) <;> simp [noTimer]

/-- Instances of C4 on the sample boards: a protected output, `TIMER2A` with
`OCR2A` as TOP, an unrecognised value, and the null handles of a sentinel. -/
theorem resolver_sentinel_witness :
    get_pwm_timer mega 13 = noTimer ∧
    get_pwm_timer megaTop 10 = noTimer ∧
    get_pwm_timer mega 20 = noTimer ∧
    ((get_pwm_timer mega 4).TCCRnQ = [none, none, none] ∧
      (get_pwm_timer mega 4).OCRnQ = [none, none, none] ∧
      (get_pwm_timer mega 4).ICRn = none) :=
  ⟨(resolver_sentinel mega 13).1 (by decide),
   (resolver_sentinel megaTop 10).2.1 (by decide) (by decide),
   (resolver_sentinel mega 20).2.2.1 (by decide),
   (resolver_sentinel mega 4).2.2.2 (by decide)⟩

/-! ## Boundary values of the duty -/

/-- C5 (boundary exactness): for every pin, `v_size` and `invert`,
`set_pwm_duty(pin, 0, v_size, invert)` performs exactly
`digitalWrite(pin, invert)`; for `v_size ≠ 0`,
`set_pwm_duty(pin, v_size, v_size, invert)` performs exactly
`digitalWrite(pin, !invert)`; neither changes a timer register, the two levels
are opposite, and for `v = v_size = 0` the off-write is performed. -/
theorem boundary_exactness (c : Chip) (pin : Int) (v_size : Nat) (invert : Bool) (s : HW) :
    set_pwm_duty c pin 0 v_size invert s = .ok ⟨s.reg, (pin, invert) :: s.digitalWrites⟩ ∧
    (v_size ≠ 0 →
      set_pwm_duty c pin v_size v_size invert s = .ok ⟨s.reg, (pin, !invert) :: s.digitalWrites⟩) ∧
    invert ≠ (!invert) ∧
    set_pwm_duty c pin 0 0 invert s = .ok ⟨s.reg, (pin, invert) :: s.digitalWrites⟩ := by
  refine ⟨?_, ?_, ?_, ?_⟩
  · simp [set_pwm_duty, digitalWrite, pure, Except.pure]
  · intro h
    simp [set_pwm_duty, digitalWrite, h, pure, Except.pure]
  · cases invert <;> decide
  · simp [set_pwm_duty, digitalWrite, pure, Except.pure]

/-- Instance of C5: full duty on pin 5 of the sample board writes the level
`true`. -/
theorem boundary_exactness_witness :
    set_pwm_duty mega 5 255 255 false hw0 = .ok ⟨hw0.reg, (5, true) :: hw0.digitalWrites⟩ :=
  (boundary_exactness mega 5 255 false hw0).2.1 (by decide)

/-! ## The frequency search: structure of an iteration -/

theorem LIMIT_bounds (v size : Int) (hs : 1 ≤ size) :
    1 ≤ LIMIT v 1 size ∧ LIMIT v 1 size ≤ size := by
  unfold LIMIT
  split_ifs <;> omega

theorem size_pos (n : Nat) : 1 ≤ size n := by
  unfold size
  split_ifs <;> omega

theorem size_ge (n : Nat) : 255 ≤ size n := by
  unfold size
  split_ifs <;> omega

/-- Every pair of candidate resolutions that `resTemp` yields lies in
`[1, size]`. -/
theorem resTemp_bounds {c : Chip} {n : Nat} {f : Int} {i : Nat} {rf rp : Int}
    (h : resTemp c n f i = .ok (some (rf, rp))) :
    (1 ≤ rf ∧ rf ≤ size n) ∧ (1 ≤ rp ∧ rp ≤ size n) := by
  have hb := fun v => LIMIT_bounds v (size n) (size_pos n)
  unfold resTemp at h
  simp only [bind, Except.bind, pure, Except.pure] at h
  split_ifs at h
  · cases hr : rtfPair c f i with
    | error e => simp [hr] at h
    | ok pr =>
      obtain ⟨a, b⟩ := pr
      simp only [hr, Except.ok.injEq, Option.some.injEq, Prod.mk.injEq] at h
      obtain ⟨h1, h2⟩ := h
      subst h1 h2
      exact ⟨hb _, hb _⟩
  · simp only [Except.ok.injEq, Option.some.injEq, Prod.mk.injEq] at h
    obtain ⟨h1, h2⟩ := h
    subst h1 h2
    exact ⟨hb _, hb _⟩
  · cases h
  · cases hr : rtfPair c f i with
    | error e => simp [hr] at h
    | ok pr =>
      obtain ⟨a, b⟩ := pr
      simp only [hr, Except.ok.injEq, Option.some.injEq, Prod.mk.injEq] at h
      obtain ⟨h1, h2⟩ := h
      subst h1 h2
      exact ⟨hb _, hb _⟩

/-- The resolutions of a candidate are those of `resTemp`. -/
theorem candAt_res {c : Chip} {n : Nat} {f : Int} {i : Nat} {cn : Cand}
    (h : candAt c n f i = .ok (some cn)) :
    resTemp c n f i = .ok (some (cn.res_temp_fast, cn.res_temp_phase_correct)) := by
  unfold candAt at h
  simp only [bind, Except.bind, pure, Except.pure] at h
  cases hr : resTemp c n f i with
  | error e => simp [hr] at h
  | ok o =>
    cases o with
    | none => simp [hr] at h
    | some pr =>
      obtain ⟨rf, rp⟩ := pr
      simp only [hr] at h
      cases hq : cdiv (c.F_CPU : Int) (u16 (prescalerAt i * u16 (1 + rf))) with
      | error e => simp [hq] at h
      | ok qf =>
        simp only [hq] at h
        cases hp : cdiv (c.F_CPU : Int) (u16 (u16 (2 * prescalerAt i) * rp)) with
        | error e => simp [hp] at h
        | ok qp =>
          simp only [hp, Except.ok.injEq, Option.some.injEq] at h
          subst h
          rfl

/-- An iteration that completes either skips (or keeps) the current best or
replaces it by `adopt` of the candidates of that iteration. -/
theorem loopBody_ok {c : Chip} {n : Nat} {f : Int} {b b' : Best} {i : Nat}
    (h : loopBody c n f b i = .ok b') :
    (candAt c n f i = .ok none ∧ b' = b) ∨
    ∃ cn, candAt c n f i = .ok (some cn) ∧ b' = adopt c n f i b cn := by
  unfold loopBody at h
  simp only [bind, Except.bind, pure, Except.pure] at h
  cases hc : candAt c n f i with
  | error e => simp [hc] at h
  | ok o =>
    cases o with
    | none =>
      simp only [hc, Except.ok.injEq] at h
      exact Or.inl ⟨rfl, h.symm⟩
    | some cn =>
      simp only [hc, Except.ok.injEq] at h
      exact Or.inr ⟨cn, rfl, h.symm⟩

/-- What `adopt` returns: the old best, the FastPWM candidate or the
PhaseCorrect candidate; the deviation value of the result is the least of the
three. -/
theorem adopt_spec (c : Chip) (n : Nat) (f : Int) (i : Nat) (b : Best) (cn : Cand) :
    (adopt c n f i b cn = b ∨
      adopt c n f i b cn = ⟨cn.f_temp_fast, cn.res_temp_fast, i, wgmFast c n⟩ ∨
      adopt c n f i b cn = ⟨cn.f_temp_phase_correct, cn.res_temp_phase_correct, i, wgmPhase c n⟩) ∧
    diffOf (adopt c n f i b cn).f f ≤ diffOf b.f f ∧
    diffOf (adopt c n f i b cn).f f ≤ diffOf cn.f_temp_fast f ∧
    diffOf (adopt c n f i b cn).f f ≤ diffOf cn.f_temp_phase_correct f := by
  unfold adopt
  simp only
  split_ifs with h1 h2
  · refine ⟨Or.inr (Or.inl rfl), ?_, ?_, ?_⟩ <;> simp only <;> omega
  · refine ⟨Or.inr (Or.inr rfl), ?_, ?_, ?_⟩ <;> simp only <;> omega
  · refine ⟨Or.inl rfl, ?_, ?_, ?_⟩ <;> omega

/-- An invariant of the loop body is an invariant of the loop. -/
theorem foldlM_invariant (P : Best → Prop) (step : Best → Nat → Except Fault Best)
    (hstep : ∀ b i b', P b → step b i = .ok b' → P b') :
    ∀ (l : List Nat) (b0 b : Best), P b0 → l.foldlM step b0 = .ok b → P b := by
  intro l
  induction l with
  | nil =>
    intro b0 b h0 h
    simp only [List.foldlM, pure, Except.pure, Except.ok.injEq] at h
    exact h ▸ h0
  | cons a l ih =>
    intro b0 b h0 h
    simp only [List.foldlM, bind, Except.bind] at h
    cases hs : step b0 a with
    | error e => simp [hs] at h
    | ok b1 =>
      simp only [hs] at h
      exact ih b1 b (hstep b0 a b1 h0 hs) h

/-- The value stored by `_SET_OCRnQ` and `_SET_ICRn` is the operand modulo
`2^16`. -/
theorem mask16 (V : Int) : store16 V = (V % 65536).toNat := by
  unfold store16
  have h : (u16 V).toNat < 2 ^ 16 := by
    unfold u16
    omega
  exact Nat.and_pow_two_sub_one_of_lt_two_pow h

/-- The byte after a register is another register. -/
theorem highByte_ne (r : Reg) : r.highByte ≠ some r := by
  cases r <;> decide

/-- Two states with the same register contents and the same log are equal. -/
theorem hw_ext {a b : HW} (h1 : ∀ x, a.reg x = b.reg x)
    (h2 : a.digitalWrites = b.digitalWrites) : a = b := by
  cases a
  cases b
  simp only [HW.mk.injEq]
  exact ⟨funext h1, h2⟩

/-- The registers after a 16-bit store at `r`: the byte after an 8-bit `r`
holds the high byte, `r` holds the value (its low byte when `r` is 8 bits
wide), every other register is as before. -/
theorem store16_reg (s : HW) (r : Reg) (v : Nat) (x : Reg) :
    (s.store16 r v).reg x =
      if r.highByte = some x then v / 256 % 256
      else if x = r then (if r.highByte = none then v else v % 256)
      else s.reg x := by
  unfold HW.store16
  cases h : r.highByte with
  | none => simp [HW.store, Function.update_apply]
  | some r' =>
    simp only [HW.store, Function.update_apply, Option.some.injEq, reduceCtorEq, if_false]
    by_cases hx : x = r'
    · simp [hx]
    · have hx' : ¬ r' = x := fun e => hx e.symm
      simp [hx, hx']

/-- A 16-bit store leaves the log of `digitalWrite` calls as it is. -/
theorem store16_writes (s : HW) (r : Reg) (v : Nat) :
    (s.store16 r v).digitalWrites = s.digitalWrites := by
  unfold HW.store16
  cases r.highByte <;> rfl

/-- A 16-bit store of a value that fits the register leaves that value in
the register: any value in a 16-bit register, a value below 256 in an 8-bit
one. -/
theorem store16_self (s : HW) (r : Reg) (v : Nat) (hv : v < 256 ∨ r.highByte = none) :
    (s.store16 r v).reg r = v := by
  rw [store16_reg]
  simp only [highByte_ne, if_false, if_true]
  split_ifs with h
  · rfl
  · rcases hv with hv | hv
    · exact Nat.mod_eq_of_lt hv
    · exact absurd hv h

/-- The `ICRn` handle of a descriptor of `get_pwm_timer` is a 16-bit
register. -/
theorem icr_wide (c : Chip) (t : TimerOut) (r : Reg)
    (h : (timerOfOutput c t).ICRn = some r) : r.highByte = none := by
  cases t <;> simp only [timerOfOutput] at h <;> (try split_ifs at h) <;>
    simp only [noTimer, Option.some.injEq, reduceCtorEq] at h
  all_goals subst h
  all_goals rfl

/-- The register that receives TOP holds `res` modulo `2^16` after the writes
of lines 243-250, when that value fits the register. -/
theorem program_top {c : Chip} {timer : Timer} {b : Best} {s s' : HW}
    (h : program c timer b s = .ok s') :
    (timer.n ≠ 2 → ∀ r, timer.ICRn = some r → r.highByte = none →
      s'.reg r = (b.res % 65536).toNat) ∧
    (timer.n = 2 → c.USE_OCR2A_AS_TOP = true →
      ∀ r, slot timer.OCRnQ 0 = some r → (b.res % 65536).toNat < 256 →
        s'.reg r = (b.res % 65536).toNat) := by
  unfold program at h
  simp only [bind, Except.bind] at h
  cases h1 : _SET_WGMnQ timer.TCCRnQ b.wgm s with
  | error e => simp [h1] at h
  | ok s1 =>
    simp only [h1] at h
    cases h2 : _SET_CSn timer.TCCRnQ b.j s1 with
    | error e => simp [h2] at h
    | ok s2 =>
      simp only [h2] at h
      constructor
      · intro hn r hr hw
        simp only [hn, if_false, _SET_ICRn, hr, deref, bind, Except.bind, pure, Except.pure,
          Except.ok.injEq, mask16] at h
        subst h
        exact store16_self _ _ _ (Or.inr hw)
      · intro hn hu r hr hv
        simp only [hn, hu, if_true, _SET_OCRnQ, handle, hr, deref, bind, Except.bind, pure,
          Except.pure, Except.ok.injEq, mask16] at h
        subst h
        exact store16_self _ _ _ (Or.inl hv)

/-! ## Resolution bound -/

/-- C9 (resolution bound): for every timer and every desired frequency, the
resolution `res` with which `set_pwm_frequency` reaches the register writes
satisfies `1 ≤ res ≤ size` (`size = 255` for timer 2, `65535` otherwise); for
`f = 0` it is the default 255; `res` is within the bounds after every completed
iteration of the loop, whether or not a candidate was adopted; and the value
found in the TOP register after a call (`ICRn`, or `OCR2A` when it is used as
TOP) lies in the same bounds. -/
theorem resolution_bound (c : Chip) (pin : Int) (n f : Nat) :
    (f = 0 → search c n f = .ok ⟨0, 255, 0, 1⟩) ∧
    (∀ b, search c n f = .ok b → 1 ≤ b.res ∧ b.res ≤ size n) ∧
    (∀ (f0 : Int) (k : Nat) (b : Best),
      (loopIndices.take k).foldlM (loopBody c n f) ⟨f0, 255, 0, 1⟩ = .ok b →
        1 ≤ b.res ∧ b.res ≤ size n) ∧
    (∀ s s', set_pwm_frequency c pin f s = .ok s' → (get_pwm_timer c pin).n ≠ 0 →
      ((get_pwm_timer c pin).n ≠ 2 → ∀ r, (get_pwm_timer c pin).ICRn = some r →
        1 ≤ s'.reg r ∧ (s'.reg r : Int) ≤ size (get_pwm_timer c pin).n) ∧
      ((get_pwm_timer c pin).n = 2 → c.USE_OCR2A_AS_TOP = true →
        ∀ r, slot (get_pwm_timer c pin).OCRnQ 0 = some r →
          1 ≤ s'.reg r ∧ (s'.reg r : Int) ≤ size (get_pwm_timer c pin).n)) := by
  have loop : ∀ (m : Nat) (l : List Nat) (f0 : Int) (b : Best),
      l.foldlM (loopBody c m f) ⟨f0, 255, 0, 1⟩ = .ok b →
        1 ≤ b.res ∧ b.res ≤ size m := by
    intro m l f0 b h
    refine foldlM_invariant (fun b => 1 ≤ b.res ∧ b.res ≤ size m) _ ?_ l
      ⟨f0, 255, 0, 1⟩ b ⟨by norm_num, size_ge m⟩ h
    intro b1 i b2 hb1 hstep
    rcases loopBody_ok hstep with ⟨_, rfl⟩ | ⟨cd, hcd, rfl⟩
    · exact hb1
    · have hr := resTemp_bounds (candAt_res hcd)
      rcases (adopt_spec c m f i b1 cd).1 with e | e | e <;> rw [e]
      · exact hb1
      · exact hr.1
      · exact hr.2
  have key : ∀ (m : Nat) (b : Best), search c m f = .ok b →
      1 ≤ b.res ∧ b.res ≤ size m := by
    intro m b h
    unfold search at h
    split_ifs at h with hf
    · simp only [bind, Except.bind] at h
      cases hs : seed c m with
      | error e => simp [hs] at h
      | ok f0 =>
        simp only [hs] at h
        exact loop m loopIndices f0 b h
    · simp only [pure, Except.pure, Except.ok.injEq] at h
      subst h
      exact ⟨by norm_num, size_ge m⟩
  refine ⟨?_, key n, fun f0 k b h => loop n _ f0 b h, ?_⟩
  · intro hf
    simp [search, hf, pure, Except.pure]
  · intro s s' h hn
    unfold set_pwm_frequency at h
    simp only [hn, if_false, bind, Except.bind] at h
    cases hs : search c (get_pwm_timer c pin).n f with
    | error e => simp [hs] at h
    | ok b =>
      simp only [hs] at h
      obtain ⟨hb1, hb2⟩ := key _ b hs
      have hsz : size (get_pwm_timer c pin).n ≤ 65535 := by
        unfold size
        split_ifs <;> omega
      have hval : ((b.res % 65536).toNat : Int) = b.res := by omega
      have hpos : 1 ≤ (b.res % 65536).toNat := by omega
      obtain ⟨p1, p2⟩ := program_top h
      constructor
      · intro h2 r hr
        rw [p1 h2 r hr (icr_wide c _ r hr), hval]
        exact ⟨hpos, hb2⟩
      · intro h2 hu r hr
        have h255 : b.res ≤ 255 := by
          have := hb2
          simp only [size, h2, if_true] at this
          exact this
        rw [p2 h2 hu r hr (by omega), hval]
        exact ⟨hpos, hb2⟩

/-- Instance of C9: at 16 MHz a 16-bit timer asked for 40961 Hz ends with
`res = 389`, and pin 5 of the sample board (`TIMER3A`) then holds 389 in
`ICR3`. -/
theorem resolution_bound_witness :
    search mega 3 40961 = .ok ⟨-24511, 389, 1, 14⟩ ∧
    ((1 : Int) ≤ 389 ∧ (389 : Int) ≤ size 3) ∧
    ∃ s', set_pwm_frequency mega 5 40961 hw0 = .ok s' ∧
      1 ≤ s'.reg .ICR3 ∧ (s'.reg .ICR3 : Int) ≤ size 3 := by
  refine ⟨by decide,
    (resolution_bound mega 5 3 40961).2.1 ⟨-24511, 389, 1, 14⟩ (by decide), ?_⟩
  have hok : (set_pwm_frequency mega 5 40961 hw0).toBool = true := by decide
  cases h : set_pwm_frequency mega 5 40961 hw0 with
  | error e => simp [h, Except.toBool] at hok
  | ok s' =>
    exact ⟨s', rfl, ((resolution_bound mega 5 3 40961).2.2.2 hw0 s' h (by decide)).1 (by decide)
      .ICR3 (by decide)⟩

/-! ## The 1000 Hz scenario -/

/-- C2 (concrete scenario), evaluated on the code: with `F_CPU = 16000000`, a
16-bit timer (3, 4 or 5) and `f_desired = 1000`, the search ends with the
defaults `res = 255`, `j = 0`, `wgm = 1` and `f` still the seed 253: no
candidate is adopted, although iteration 1 computes the FastPWM candidate
`TOP = 15999` with frequency exactly 1000.  The deviation of the seed is
stored as `-747` (the difference is unsigned, `ABS` leaves it unchanged, the
`int` reads it as negative; a seed of 1 would be stored as `-999`) and the
candidate's deviation `0` is not below it.  On pin 5 of the sample board the call leaves `TCCR3A = 1`, `TCCR3B = 0` (clock
stopped) and `ICR3 = 255`. -/
theorem scenario_1000Hz_not_adopted :
    search mega 3 1000 = .ok ⟨253, 255, 0, 1⟩ ∧
    search mega 4 1000 = .ok ⟨253, 255, 0, 1⟩ ∧
    search mega 5 1000 = .ok ⟨253, 255, 0, 1⟩ ∧
    candAt mega 3 1000 1 = .ok (some ⟨15999, 8000, 1000, 1000⟩) ∧
    diffOf 253 1000 = -747 ∧ diffOf 1 1000 = -999 ∧ diffOf 1000 1000 = 0 ∧
    (set_pwm_frequency mega 5 1000 hw0).map
      (fun s => (s.reg .TCCR3A, s.reg .TCCR3B, s.reg .ICR3)) = .ok (1, 0, 255) := by
  refine ⟨by decide, by decide, by decide, by decide, by decide, by decide, by decide,
    by decide⟩

/-! ## Candidate resolutions -/

/-- C10 (candidate resolutions), evaluated on the code: with
`F_CPU = 16000000`, a 16-bit timer, prescaler index 1 and `f_desired = 1`, the
code's candidates are `res_temp_fast = 9215` and
`res_temp_phase_correct = 4608` (the quotient 16000000 is cut to the 16 bits of
`rtf`, 9216, before the clamp), while the mathematical values clamped into
`[1, 65535]` are both 65535. -/
theorem candidate_resolutions_truncated :
    resTemp mega 3 1 1 = .ok (some (9215, 4608)) ∧
    specResFast 16000000 (prescalerAt 1) 1 (size 3) = 65535 ∧
    specResPhase 16000000 (prescalerAt 1) 1 (size 3) = 65535 := by
  refine ⟨by decide, by decide, by decide⟩

/-! ## The register writes of `set_pwm_frequency` -/

set_option maxRecDepth 1000000 in
theorem wgmLow_aux : ∀ x < 256, ∀ a < 4,
    ((((x &&& not16 (0x3 <<< 0)) ||| (a <<< 0)) % 256 % 256 &&& not16 (0x3 <<< 0)) ||| (a <<< 0)) % 256
      = ((x &&& not16 (0x3 <<< 0)) ||| (a <<< 0)) % 256 := by decide

set_option maxRecDepth 1000000 in
set_option maxHeartbeats 4000000 in
theorem csHigh_aux : ∀ x < 256, ∀ a < 4, ∀ c < 8,
    ((((((((x &&& not16 (0x3 <<< 3)) ||| (a <<< 3)) % 256 % 256 &&& not16 (0x7 <<< 0)) |||
        (c <<< 0)) % 256 % 256
        &&& not16 (0x3 <<< 3)) ||| (a <<< 3)) % 256 % 256 &&& not16 (0x7 <<< 0)) ||| (c <<< 0)) % 256
      = ((((x &&& not16 (0x3 <<< 3)) ||| (a <<< 3)) % 256 % 256 &&& not16 (0x7 <<< 0)) |||
        (c <<< 0)) % 256 := by decide

theorem and3_lt (V : Nat) : V &&& 0x3 < 4 := Nat.and_lt_two_pow V (n := 2) (by norm_num)

theorem and7_lt (V : Nat) : V &&& 0x7 < 8 := Nat.and_lt_two_pow V (n := 3) (by norm_num)

/-- Writing the low mode bits twice is writing them once. -/
theorem wgmLow_idem (V x : Nat) :
    wgmLow V (wgmLow V (x % 256) % 256) = wgmLow V (x % 256) := by
  unfold wgmLow
  exact wgmLow_aux (x % 256) (Nat.mod_lt _ (by norm_num)) (V &&& 0x3) (and3_lt V)

/-- Writing the high mode bits and the clock select twice is writing them
once. -/
theorem csHigh_idem (V J x : Nat) :
    csBits J (wgmHigh V (csBits J (wgmHigh V (x % 256) % 256) % 256) % 256)
      = csBits J (wgmHigh V (x % 256) % 256) := by
  unfold csBits wgmHigh
  exact csHigh_aux (x % 256) (Nat.mod_lt _ (by norm_num)) ((V >>> 2) &&& 0x3) (and3_lt _)
    (J &&& 0x7) (and7_lt J)

/-- The state after `_SET_WGMnQ` and `_SET_CSn` when both control handles are
present and distinct. -/
theorem ctrl_writes {TCCRnQ : List (Option Reg)} {r0 r1 : Reg} (V J : Nat) (s : HW)
    (h0 : slot TCCRnQ 0 = some r0) (h1 : slot TCCRnQ 1 = some r1) (hne : r0 ≠ r1) :
    (_SET_WGMnQ TCCRnQ V s >>= _SET_CSn TCCRnQ J) =
      .ok ⟨Function.update (Function.update s.reg r0 (wgmLow V (s.reg r0 % 256))) r1
        (csBits J (wgmHigh V (s.reg r1 % 256) % 256)), s.digitalWrites⟩ := by
  simp only [_SET_WGMnQ, _SET_CSn, handle, h0, h1, deref, bind, Except.bind, pure, Except.pure,
    HW.store, HW.load8, Function.update_same, Function.update_idem,
    Function.update_noteq (Ne.symm hne)]

/-- Lines 243-250 as the control-register writes followed by the TOP
store. -/
theorem program_split (c : Chip) (timer : Timer) (b : Best) (t : HW) :
    program c timer b t =
      ((_SET_WGMnQ timer.TCCRnQ b.wgm t >>= _SET_CSn timer.TCCRnQ b.j) >>= fun s2 =>
        match topHandle c timer with
        | none => pure s2
        | some h => deref h >>= fun r => pure (s2.store16 r (store16 b.res))) := by
  simp only [program, topHandle, bind, Except.bind, _SET_OCRnQ, _SET_ICRn, handle]
  cases _SET_WGMnQ timer.TCCRnQ b.wgm t with
  | error e => rfl
  | ok s1 =>
    simp only
    cases _SET_CSn timer.TCCRnQ b.j s1 with
    | error e => rfl
    | ok s2 =>
      simp only
      split_ifs <;> rfl

/-- A null control handle makes the register writes fault in every state. -/
theorem program_null (c : Chip) (timer : Timer) (b : Best) (t : HW)
    (h : slot timer.TCCRnQ 0 = none ∨ slot timer.TCCRnQ 1 = none) :
    ∃ e, program c timer b t = .error e := by
  rw [program_split]
  simp only [_SET_WGMnQ, _SET_CSn, handle, bind, Except.bind]
  cases h0 : slot timer.TCCRnQ 0 with
  | none => exact ⟨_, rfl⟩
  | some r0 =>
    cases h1 : slot timer.TCCRnQ 1 with
    | none => exact ⟨_, rfl⟩
    | some r1 => simp [h0, h1] at h

/-- The result of lines 243-250 when both control handles are present and
distinct. -/
theorem program_eq {c : Chip} {timer : Timer} {b : Best} {r0 r1 : Reg}
    (h0 : slot timer.TCCRnQ 0 = some r0) (h1 : slot timer.TCCRnQ 1 = some r1) (hne : r0 ≠ r1)
    (t : HW) :
    program c timer b t =
      match topHandle c timer with
      | none =>
        .ok ⟨Function.update (Function.update t.reg r0 (wgmLow b.wgm (t.reg r0 % 256))) r1
          (csBits b.j (wgmHigh b.wgm (t.reg r1 % 256) % 256)), t.digitalWrites⟩
      | some none => .error .nullDeref
      | some (some r) =>
        .ok ((⟨Function.update (Function.update t.reg r0 (wgmLow b.wgm (t.reg r0 % 256))) r1
            (csBits b.j (wgmHigh b.wgm (t.reg r1 % 256) % 256)), t.digitalWrites⟩ : HW).store16
          r ((b.res % 65536).toNat)) := by
  rw [program_split, ctrl_writes b.wgm b.j t h0 h1 hne]
  cases topHandle c timer with
  | none => rfl
  | some h =>
    cases h with
    | none => rfl
    | some r =>
      simp only [bind, Except.bind, deref, pure, Except.pure, mask16]

/-- The register writes of lines 243-250 are idempotent on a timer whose
control registers are distinct from each other, from the TOP register and from
the byte after it. -/
theorem program_idem {c : Chip} {timer : Timer} {b : Best} {s s' : HW}
    (hd : ∀ r0 r1, slot timer.TCCRnQ 0 = some r0 → slot timer.TCCRnQ 1 = some r1 →
      r0 ≠ r1 ∧ ∀ r, topHandle c timer = some (some r) →
        r ≠ r0 ∧ r ≠ r1 ∧ r.highByte ≠ some r0 ∧ r.highByte ≠ some r1)
    (h : program c timer b s = .ok s') : program c timer b s' = .ok s' := by
  cases h0 : slot timer.TCCRnQ 0 with
  | none =>
    obtain ⟨e, he⟩ := program_null c timer b s (Or.inl h0)
    rw [he] at h
    cases h
  | some r0 =>
    cases h1 : slot timer.TCCRnQ 1 with
    | none =>
      obtain ⟨e, he⟩ := program_null c timer b s (Or.inr h1)
      rw [he] at h
      cases h
    | some r1 =>
      obtain ⟨hne, hT⟩ := hd r0 r1 h0 h1
      rw [program_eq h0 h1 hne] at h ⊢
      cases ht : topHandle c timer with
      | none =>
        simp only [ht, Except.ok.injEq] at h ⊢
        subst h
        simp only [HW.mk.injEq, and_true]
        funext x
        simp only [Function.update_apply]
        split_ifs <;> simp_all [wgmLow_idem, csHigh_idem]
      | some hh =>
        cases hh with
        | none => simp [ht] at h
        | some r =>
          obtain ⟨n0, n1, m0, m1⟩ := hT r ht
          simp only [ht, Except.ok.injEq] at h ⊢
          subst h
          refine hw_ext (fun x => ?_) (by simp only [store16_writes])
          simp only [store16_reg, Function.update_apply, m0, m1, if_false, Ne.symm n0,
            Ne.symm n1, Ne.symm hne, if_true]
          by_cases hx : r.highByte = some x
          · simp only [hx, if_true]
          · simp only [hx, if_false]
            by_cases hxr : x = r
            · simp only [hxr, if_true]
            · simp only [hxr, if_false]
              by_cases hx1 : x = r1
              · subst hx1
                simp only [if_true]
                exact csHigh_idem _ _ _
              · simp only [hx1, if_false]
                by_cases hx0 : x = r0
                · subst hx0
                  simp only [if_true, hx1, if_false]
                  exact wgmLow_idem _ _
                · simp only [hx0, if_false]

set_option maxHeartbeats 2000000 in
/-- In a descriptor of `get_pwm_timer` the two control registers are different
registers, and neither is the register that receives TOP or the byte after
it. -/
theorem handles_distinct_output (c : Chip) (t : TimerOut) (r0 r1 : Reg)
    (h0 : slot (timerOfOutput c t).TCCRnQ 0 = some r0)
    (h1 : slot (timerOfOutput c t).TCCRnQ 1 = some r1) :
    r0 ≠ r1 ∧
    ∀ r, topHandle c (timerOfOutput c t) = some (some r) →
      r ≠ r0 ∧ r ≠ r1 ∧ r.highByte ≠ some r0 ∧ r.highByte ≠ some r1 := by
  cases t <;> simp only [timerOfOutput] at h0 h1 ⊢ <;>
    (try split_ifs at h0 h1 ⊢) <;>
    simp only [noTimer, slot, Option.some.injEq, reduceCtorEq] at h0 h1
  all_goals subst h0 h1
  all_goals refine ⟨by decide, fun r hr => ?_⟩
  all_goals simp only [topHandle, slot] at hr
  all_goals split_ifs at hr
  all_goals simp only [Option.some.injEq, reduceCtorEq] at hr
  all_goals (try subst hr)
  all_goals (try decide)

/-! ## Idempotence -/

/-- C7 (idempotence): for every pin, every desired frequency and every initial
state, running `set_pwm_frequency(pin, f)` a second time on the state left by
the first run leaves that state as it is; a first run that faults has no
state to continue from, and the sequence faults with it. -/
theorem set_pwm_frequency_idempotent (c : Chip) (pin : Int) (f : Nat) (s : HW) :
    (set_pwm_frequency c pin f s >>= set_pwm_frequency c pin f) = set_pwm_frequency c pin f s ∧
    ∀ s', set_pwm_frequency c pin f s = .ok s' → set_pwm_frequency c pin f s' = .ok s' := by
  have key : ∀ s', set_pwm_frequency c pin f s = .ok s' →
      set_pwm_frequency c pin f s' = .ok s' := by
    intro s' h
    unfold set_pwm_frequency at h ⊢
    by_cases hn : (get_pwm_timer c pin).n = 0
    · simp only [hn, if_true, pure, Except.pure, Except.ok.injEq] at h ⊢
    · simp only [hn, if_false, bind, Except.bind] at h ⊢
      cases hs : search c (get_pwm_timer c pin).n f with
      | error e => simp [hs] at h
      | ok b =>
        simp only [hs] at h ⊢
        exact program_idem (fun r0 r1 h0 h1 => handles_distinct_output c _ r0 r1 h0 h1) h
  refine ⟨?_, key⟩
  cases h : set_pwm_frequency c pin f s with
  | error e => rfl
  | ok s' => exact key s' h

/-- Instance of C7 on pin 5 of the sample board (`TIMER3A`): the first run
completes, and the second run returns the state it was given. -/
theorem set_pwm_frequency_idempotent_witness :
    ∃ s', set_pwm_frequency mega 5 40961 hw0 = .ok s' ∧
      set_pwm_frequency mega 5 40961 s' = .ok s' := by
  have hok : (set_pwm_frequency mega 5 40961 hw0).toBool = true := by decide
  cases h : set_pwm_frequency mega 5 40961 hw0 with
  | error e => simp [h, Except.toBool] at hok
  | ok s' => exact ⟨s', rfl, (set_pwm_frequency_idempotent mega 5 40961 hw0).2 s' h⟩

/-! ## Zero frequency -/

set_option maxRecDepth 1000000 in
theorem default_bits_aux : ∀ x < 256,
    wgmLow 1 x % 4 = 1 ∧ csBits 0 (wgmHigh 1 x % 256) / 8 % 4 = 0 ∧
      csBits 0 (wgmHigh 1 x % 256) % 8 = 0 := by decide

/-- C8 as stated fails: for `f_desired = 0` the waveform-mode value handed to
the register writes is the literal `1`, which is none of the FastPWM modes the
loop assigns (14 for the 16-bit timers, 3 and 7 for timer 2); on pin 5 of the
sample board the call leaves `TCCR3A = 1`, `TCCR3B = 0`, `ICR3 = 255`, i.e. the
mode bits `0001` of 8-bit phase-correct PWM. -/
theorem zero_frequency_mode_not_fast :
    search mega 3 0 = .ok ⟨0, 255, 0, 1⟩ ∧
    (1 : Nat) ≠ wgmFast mega 3 ∧ (1 : Nat) ≠ wgmFast mega 2 ∧ (1 : Nat) ≠ wgmFast megaTop 2 ∧
    (set_pwm_frequency mega 5 0 hw0).map
      (fun s => (s.reg .TCCR3A, s.reg .TCCR3B, s.reg .ICR3)) = .ok (1, 0, 255) := by
  refine ⟨by decide, by decide, by decide, by decide, by decide⟩

/-- C8 (zero-frequency default), amended: for every supported timer,
`set_pwm_frequency(pin, 0)` skips the search and runs the register writes with
the defaults `wgm = 1` (the literal of line 183), `j = 0`
and `res = 255`; when the call completes, bits 0..1 of the first control
register hold 1, bits 3..4 and bits 0..2 of the second control register hold
0, and the TOP register, when one is written, holds 255. -/
theorem zero_frequency_default (c : Chip) (pin : Int) (s : HW)
    (hn : (get_pwm_timer c pin).n ≠ 0) :
    search c (get_pwm_timer c pin).n 0 = .ok ⟨0, 255, 0, 1⟩ ∧
    set_pwm_frequency c pin 0 s = program c (get_pwm_timer c pin) ⟨0, 255, 0, 1⟩ s ∧
    (∀ s' r0 r1, set_pwm_frequency c pin 0 s = .ok s' →
      slot (get_pwm_timer c pin).TCCRnQ 0 = some r0 →
      slot (get_pwm_timer c pin).TCCRnQ 1 = some r1 →
        s'.reg r0 % 4 = 1 ∧ s'.reg r1 / 8 % 4 = 0 ∧ s'.reg r1 % 8 = 0 ∧
        ∀ r, topHandle c (get_pwm_timer c pin) = some (some r) → s'.reg r = 255) := by
  have hs : search c (get_pwm_timer c pin).n 0
      = .ok ⟨0, 255, 0, 1⟩ := by
    simp [search, pure, Except.pure]
  have hp : set_pwm_frequency c pin 0 s
      = program c (get_pwm_timer c pin) ⟨0, 255, 0, 1⟩ s := by
    simp only [set_pwm_frequency, hn, if_false, hs, bind, Except.bind]
  refine ⟨hs, hp, ?_⟩
  intro s' r0 r1 h h0 h1
  obtain ⟨hne, hT⟩ := handles_distinct_output c _ r0 r1 h0 h1
  have hx0 := default_bits_aux (s.reg r0 % 256) (Nat.mod_lt _ (by norm_num))
  have hx1 := default_bits_aux (s.reg r1 % 256) (Nat.mod_lt _ (by norm_num))
  rw [hp, program_eq h0 h1 hne] at h
  cases ht : topHandle c (get_pwm_timer c pin) with
  | none =>
    simp only [ht, Except.ok.injEq] at h
    subst h
    simp only [Function.update_same, Function.update_noteq hne]
    exact ⟨hx0.1, hx1.2.1, hx1.2.2, fun r hr => by cases hr⟩
  | some hh =>
    cases hh with
    | none => simp [ht] at h
    | some r =>
      obtain ⟨n0, n1, m0, m1⟩ := hT r ht
      simp only [ht, Except.ok.injEq] at h
      subst h
      have e0 : ∀ (t : HW) (w : Nat), (t.store16 r w).reg r0 = t.reg r0 := by
        intro t w
        rw [store16_reg]
        simp only [m0, if_false, Ne.symm n0]
      have e1 : ∀ (t : HW) (w : Nat), (t.store16 r w).reg r1 = t.reg r1 := by
        intro t w
        rw [store16_reg]
        simp only [m1, if_false, Ne.symm n1]
      simp only [e0, e1, Function.update_same, Function.update_noteq hne]
      refine ⟨hx0.1, hx1.2.1, hx1.2.2, fun r' hr => ?_⟩
      simp only [Option.some.injEq] at hr
      subst hr
      exact store16_self _ _ _ (Or.inl (by norm_num))

/-- Instance of C8 (amended) on pin 5 of the sample board: the call completes
and leaves the default mode, clock-select and TOP values. -/
theorem zero_frequency_default_witness :
    (get_pwm_timer mega 5).n ≠ 0 ∧
    ∃ s', set_pwm_frequency mega 5 0 hw0 = .ok s' ∧
      s'.reg .TCCR3A % 4 = 1 ∧ s'.reg .TCCR3B / 8 % 4 = 0 ∧ s'.reg .TCCR3B % 8 = 0 ∧
      s'.reg .ICR3 = 255 := by
  refine ⟨by decide, ?_⟩
  have hok : (set_pwm_frequency mega 5 0 hw0).toBool = true := by decide
  cases h : set_pwm_frequency mega 5 0 hw0 with
  | error e => simp [h, Except.toBool] at hok
  | ok s' =>
    have hz := (zero_frequency_default mega 5 hw0 (by decide)).2.2 s' .TCCR3A .TCCR3B h
      (by decide) (by decide)
    exact ⟨s', rfl, hz.1, hz.2.1, hz.2.2.1, hz.2.2.2 .ICR3 (by decide)⟩

/-! ## Duty scaling -/

/-- C6 as stated fails: with `top = 65535` and `v_size = 2`, the non-boundary
values `v1 = 1 ≤ v2 = 3` give the compare values 32767 and 32766; for `v2` the
quotient 98302 is cut to 16 bits.  The two calls of `set_pwm_duty` on pin 5 of
the sample board with `ICR3 = 65535` leave these values in `OCR3A`. -/
theorem duty_scaling_not_monotone :
    (1 : Nat) ≤ 3 ∧ (1 : Nat) ≠ 0 ∧ (1 : Nat) ≠ 2 ∧ (3 : Nat) ≠ 0 ∧ (3 : Nat) ≠ 2 ∧
    (scaleDuty 1 65535 2).map (fun d => store16 d) = .ok 32767 ∧
    (scaleDuty 3 65535 2).map (fun d => store16 d) = .ok 32766 ∧
    (set_pwm_duty mega 5 1 2 false ⟨fun r => if r = .ICR3 then 65535 else 0, []⟩).map
      (fun s => s.reg .OCR3A) = .ok 32767 ∧
    (set_pwm_duty mega 5 3 2 false ⟨fun r => if r = .ICR3 then 65535 else 0, []⟩).map
      (fun s => s.reg .OCR3A) = .ok 32766 := by
  refine ⟨by decide, by decide, by decide, by decide, by decide, by decide, by decide,
    by decide, by decide⟩

/-- C6 (resolution monotonicity), amended: for every 16-bit `top`, every
non-zero `v_size` and all 16-bit `v1 ≤ v2` such that the quotient
`v2 * top / v_size` fits in 16 bits (in particular whenever `v2 ≤ v_size`),
both scalings complete and the compare value stored for `v1` is at most the
one stored for `v2`. -/
theorem duty_scaling_monotone (top v_size v1 v2 : Nat) (htop : top < 65536)
    (hvs : v_size ≠ 0) (h1 : v1 < 65536) (h2 : v2 < 65536) (h12 : v1 ≤ v2)
    (hfit : v2 ≤ v_size ∨ v2 * top / v_size < 65536) :
    ∃ d1 d2, scaleDuty v1 top v_size = .ok d1 ∧ scaleDuty v2 top v_size = .ok d2 ∧
      store16 d1 ≤ store16 d2 := by
  have hq2 : v2 * top / v_size < 65536 := by
    rcases hfit with h | h
    · have : v2 * top / v_size ≤ top := by
        calc v2 * top / v_size ≤ v_size * top / v_size :=
              Nat.div_le_div_right (Nat.mul_le_mul_right top h)
          _ = top := Nat.mul_div_cancel_left top (Nat.pos_of_ne_zero hvs)
      omega
    · exact h
  have hq12 : v1 * top / v_size ≤ v2 * top / v_size :=
    Nat.div_le_div_right (Nat.mul_le_mul_right top h12)
  have hm : ∀ v, v < 65536 → v * top % 4294967296 = v * top := by
    intro v hv
    apply Nat.mod_eq_of_lt
    calc v * top < 65536 * 65536 := Nat.mul_lt_mul'' hv htop
      _ = 4294967296 := by norm_num
  refine ⟨v1 * top / v_size % 65536, v2 * top / v_size % 65536, ?_, ?_, ?_⟩
  · simp [scaleDuty, hvs, hm v1 h1]
  · simp [scaleDuty, hvs, hm v2 h2]
  · rw [mask16, mask16]
    have e1 : v1 * top / v_size % 65536 = v1 * top / v_size := Nat.mod_eq_of_lt (by omega)
    have e2 : v2 * top / v_size % 65536 = v2 * top / v_size := Nat.mod_eq_of_lt hq2
    rw [e1, e2]
    omega

/-- Instance of C6 (amended): `top = 15999`, `v_size = 255`, `v1 = 64`,
`v2 = 128`. -/
theorem duty_scaling_monotone_witness :
    ∃ d1 d2, scaleDuty 64 15999 255 = .ok d1 ∧ scaleDuty 128 15999 255 = .ok d2 ∧
      store16 d1 ≤ store16 d2 :=
  duty_scaling_monotone 15999 255 64 128 (by decide) (by decide) (by decide) (by decide)
    (by decide) (Or.inl (by decide))

/-! ## Frequency fit -/

/-- After the loop over a list of indices, the deviation value of the best
frequency is at most that of the initial one and of every candidate computed
on the way, and the result is the initial best or one of those candidates. -/
theorem loop_best (c : Chip) (n : Nat) (f : Int) :
    ∀ (l : List Nat) (b0 b : Best), l.foldlM (loopBody c n f) b0 = .ok b →
      diffOf b.f f ≤ diffOf b0.f f ∧
      (∀ i ∈ l, ∀ cn, candAt c n f i = .ok (some cn) →
        diffOf b.f f ≤ diffOf cn.f_temp_fast f ∧
        diffOf b.f f ≤ diffOf cn.f_temp_phase_correct f) ∧
      (b = b0 ∨ ∃ i ∈ l, ∃ cn, candAt c n f i = .ok (some cn) ∧
        (b = ⟨cn.f_temp_fast, cn.res_temp_fast, i, wgmFast c n⟩ ∨
         b = ⟨cn.f_temp_phase_correct, cn.res_temp_phase_correct, i, wgmPhase c n⟩)) := by
  intro l
  induction l with
  | nil =>
    intro b0 b h
    simp only [List.foldlM, pure, Except.pure, Except.ok.injEq] at h
    subst h
    exact ⟨le_refl _, fun i hi => (by cases hi), Or.inl rfl⟩
  | cons a l ih =>
    intro b0 b h
    simp only [List.foldlM, bind, Except.bind] at h
    cases hs : loopBody c n f b0 a with
    | error e => simp [hs] at h
    | ok b1 =>
      simp only [hs] at h
      obtain ⟨ih1, ih2, ih3⟩ := ih b1 b h
      rcases loopBody_ok hs with ⟨hc, rfl⟩ | ⟨cd, hc, rfl⟩
      · refine ⟨ih1, ?_, ?_⟩
        · intro i hi cn hci
          rcases List.mem_cons.mp hi with rfl | hi'
          · rw [hc] at hci
            cases hci
          · exact ih2 i hi' cn hci
        · rcases ih3 with e | ⟨i, hi, cn, hci, e⟩
          · exact Or.inl e
          · exact Or.inr ⟨i, List.mem_cons_of_mem _ hi, cn, hci, e⟩
      · obtain ⟨a1, a2, a3, a4⟩ := adopt_spec c n f a b0 cd
        refine ⟨le_trans ih1 a2, ?_, ?_⟩
        · intro i hi cn hci
          rcases List.mem_cons.mp hi with rfl | hi'
          · rw [hc] at hci
            cases hci
            exact ⟨le_trans ih1 a3, le_trans ih1 a4⟩
          · exact ih2 i hi' cn hci
        · rcases ih3 with e | ⟨i, hi, cn, hci, e⟩
          · rcases a1 with e1 | e1 | e1
            · exact Or.inl (e.trans e1)
            · exact Or.inr ⟨a, List.mem_cons_self _ _, cd, hc, Or.inl (e.trans e1)⟩
            · exact Or.inr ⟨a, List.mem_cons_self _ _, cd, hc, Or.inr (e.trans e1)⟩
          · exact Or.inr ⟨i, List.mem_cons_of_mem _ hi, cn, hci, e⟩

/-- A request on which no computed frequency is below `f` and no candidate is
strictly closer than the seed: at 2 MHz on a 16-bit timer the seed is 32, and
for `f_desired = 32` every candidate has frequency 32; the sweep completes and
keeps the defaults `res = 255`, `j = 0`, `wgm = 1`, which are none of the
candidates. -/
theorem seed_tie_keeps_defaults :
    seed mega2MHz 3 = .ok 32 ∧
    candAt mega2MHz 3 32 1 = .ok (some ⟨62499, 31250, 32, 32⟩) ∧
    candAt mega2MHz 3 32 7 = .ok (some ⟨60, 30, 32, 32⟩) ∧
    search mega2MHz 3 32 = .ok ⟨32, 255, 0, 1⟩ := by
  refine ⟨by decide, by decide, by decide, by decide⟩

/-! ## The sweep on the 1000 Hz request -/

/-- C14 (full-sweep optimality), evaluated on the code: with
`F_CPU = 16000000`, a 16-bit timer and `f_desired = 1000`, the seed is 253
(absolute deviation 747) and iteration 1 computes the FastPWM and PhaseCorrect
candidates with frequency 1000 (absolute deviation 0), yet the iteration keeps
the seed: the absolute deviation of the best is 747 and not the minimum 0, and
the sweep ends with `f = 253`, whose absolute deviation exceeds that of the
candidates tested. -/
theorem sweep_keeps_the_seed :
    seed mega 3 = .ok 253 ∧
    candAt mega 3 1000 1 = .ok (some ⟨15999, 8000, 1000, 1000⟩) ∧
    loopBody mega 3 1000 ⟨253, 255, 0, 1⟩ 1 = .ok ⟨253, 255, 0, 1⟩ ∧
    specDeviation 253 1000 = 747 ∧ specDeviation 1000 1000 = 0 ∧
    specDeviation 253 1000 ≠
      min (specDeviation 253 1000) (min (specDeviation 1000 1000) (specDeviation 1000 1000)) ∧
    (search mega 3 1000).map (fun b => b.f) = .ok 253 ∧
    ¬ (specDeviation 253 1000 ≤ specDeviation 1000 1000) := by
  refine ⟨by decide, by decide, by decide, by decide, by decide, by decide, by decide,
    by decide⟩

/-- C19 (running clock), evaluated on the code: with `F_CPU = 16000000`, a
16-bit timer and `f_desired = 1000` no candidate is adopted; the search ends
with the sentinel `j = 0` and the literal default `wgm = 1`, which is none of
the modes assigned inside the loop; on pin 5 of the sample board a timer that
was running with clock-select 3 is left with clock-select 0. -/
theorem clock_stopped_at_1000Hz :
    (search mega 3 1000).map (fun b => (b.j, b.wgm)) = .ok (0, 1) ∧
    (1 : Nat) ≠ wgmFast mega 3 ∧ (1 : Nat) ≠ wgmPhase mega 3 ∧
    (⟨fun r => if r = .TCCR3B then 3 else 0, []⟩ : HW).reg .TCCR3B % 8 = 3 ∧
    (set_pwm_frequency mega 5 1000 ⟨fun r => if r = .TCCR3B then 3 else 0, []⟩).map
      (fun s => s.reg .TCCR3B % 8) = .ok 0 := by
  refine ⟨by decide, by decide, by decide, by decide, by decide⟩

/-! ## Null handles and zero divisors -/

/-- C16 (no null handle), evaluated on the code: on a chip with `HAS_TCCR2` the
descriptor of a pin on `TIMER2` has `n = 2` and a null `TCCRnQ[1]`, and
`set_pwm_frequency(pin, 0)` dereferences it in `_SET_WGMnQ`. -/
theorem null_control_handle_dereferenced :
    (get_pwm_timer m128 15).n = 2 ∧
    slot (get_pwm_timer m128 15).TCCRnQ 0 = some .TCCR2 ∧
    slot (get_pwm_timer m128 15).TCCRnQ 1 = none ∧
    search m128 2 0 = .ok ⟨0, 255, 0, 1⟩ ∧
    (_SET_WGMnQ (get_pwm_timer m128 15).TCCRnQ 1 hw0).map (fun _ => ()) = .error .nullDeref ∧
    (set_pwm_frequency m128 15 0 hw0).map (fun _ => ()) = .error .nullDeref := by
  refine ⟨by decide, by decide, by decide, by decide, by decide, by decide⟩

/-- C17 (no division by zero in the fitter), evaluated on the code with
`F_CPU = 16000000`.  On a 16-bit timer, `f_desired = 64` makes
`prescaler[7] * f_desired` wrap to 0 after six completed iterations;
`f_desired = 61` makes `prescaler[6] * (1 + res_temp_fast)` wrap to 0
(`res_temp_fast = 1023`); `f_desired = 122` makes
`2 * prescaler[4] * res_temp_phase_correct` wrap to 0
(`res_temp_phase_correct = 1024`).  On timer 2 without `USE_OCR2A_AS_TOP`,
`prescaler[6] * (1 + 255)` is 0 for `f_desired = 1`.  Each call ends in the
division by zero. -/
theorem fitter_divides_by_zero :
    u16 (prescalerAt 7 * 64) = 0 ∧
    (loopIndices.take 6).foldlM (loopBody mega 3 64) ⟨253, 255, 0, 1⟩ = .ok ⟨253, 255, 0, 1⟩ ∧
    search mega 3 64 = .error .divByZero ∧
    resTemp mega 3 61 6 = .ok (some (1023, 512)) ∧ u16 (prescalerAt 6 * u16 (1 + 1023)) = 0 ∧
    search mega 3 61 = .error .divByZero ∧
    resTemp mega 3 122 4 = .ok (some (2048, 1024)) ∧
    u16 (u16 (2 * prescalerAt 4) * 1024) = 0 ∧
    search mega 3 122 = .error .divByZero ∧
    resTemp mega 2 1 6 = .ok (some (255, 255)) ∧ u16 (prescalerAt 6 * u16 (1 + 255)) = 0 ∧
    search mega 2 1 = .error .divByZero ∧
    (set_pwm_frequency mega 5 64 hw0).map (fun _ => ()) = .error .divByZero := by
  refine ⟨by decide, by decide, by decide, by decide, by decide, by decide, by decide,
    by decide, by decide, by decide, by decide, by decide, by decide⟩

/-! ## The compare output mode index -/

/-- C12 (duty scaling), evaluated on the code: on a chip with `HAS_TCCR2`, a pin
on `TIMER3C` has `q = 2` and line 268 passes the index `2 + (2 == 2) = 3`, so
the shift is 0.  With `ICR3 = 1000`, `set_pwm_duty(pin, 1, 255, false)` stores
the scaled value 3 in `OCR3C`, but writes `COM_CLEAR_SET` into bits 0..1 of
`TCCR3A` and leaves the bits of channel C at position `6 - 2 * 2` as they
were.  On the pin on `TIMER2` (`q = 0`) the index is 0 and bits 6..7 of `TCCR2`
are written, not bits 4..5. -/
theorem com_bits_misplaced :
    (get_pwm_timer m128 5).q = 2 ∧ comIndex m128 (get_pwm_timer m128 5) = 3 ∧
    (set_pwm_duty m128 5 1 255 false ⟨fun r => if r = .ICR3 then 1000 else 0, []⟩).map
      (fun s => (s.reg .OCR3C, s.reg .TCCR3A % 4, s.reg .TCCR3A / 4 % 4)) = .ok (3, 2, 0) ∧
    (get_pwm_timer m128 15).q = 0 ∧ comIndex m128 (get_pwm_timer m128 15) = 0 ∧
    (set_pwm_duty m128 15 1 255 false hw0).map
      (fun s => (s.reg .TCCR2 / 64 % 4, s.reg .TCCR2 / 16 % 4)) = .ok (2, 0) := by
  refine ⟨by decide, by decide, by decide, by decide, by decide, by decide⟩

/-- C20 (duty updates preserve the frequency configuration), evaluated on the
code: on a chip with `HAS_TCCR2`, after `set_pwm_frequency(pin, 40961)` on the
pin on `TIMER3C` bits 0..1 of `TCCR3A` hold 2 (mode 14); the following
`set_pwm_duty(pin, 100, 255, true)` leaves 3 in these waveform-mode bits and
does not touch the two bits at position `6 - 2 * q = 2`.  On the sample board
without `HAS_TCCR2` the same calls leave bits 0..1 at 2 and set bits 2..3. -/
theorem duty_changes_mode_bits :
    (set_pwm_frequency m128 5 40961 hw0).map
      (fun s => (s.reg .TCCR3A % 4, s.reg .TCCR3A / 4 % 4)) = .ok (2, 0) ∧
    (set_pwm_frequency m128 5 40961 hw0 >>= set_pwm_duty m128 5 100 255 true).map
      (fun s => (s.reg .TCCR3A % 4, s.reg .TCCR3A / 4 % 4)) = .ok (3, 0) ∧
    (set_pwm_frequency mega 3 40961 hw0 >>= set_pwm_duty mega 3 100 255 true).map
      (fun s => (s.reg .TCCR3A % 4, s.reg .TCCR3A / 4 % 4)) = .ok (2, 3) := by
  refine ⟨by decide, by decide, by decide⟩

/-! ## Channel mapping -/

/-- C15 (channel mapping): for every value of `digitalPinToTimer` that has a
compiled-in descriptor case (so is handled and not protected), the descriptor
has `n` equal to the timer number of the output (one of 2, 3, 4, 5) and `q`
equal to the index of its letter (A is 0, B is 1, C is 2), so `q ≤ 2`; the
descriptors of timers 3, 4, 5 carry a present `ICRn`, those of timer 2 carry
none. -/
theorem channel_mapping (c : Chip) (pin : Int)
    (h : hasTimerCase c (c.digitalPinToTimer pin) = true) :
    (get_pwm_timer c pin).n = timerNumber (c.digitalPinToTimer pin) ∧
    (2 ≤ (get_pwm_timer c pin).n ∧ (get_pwm_timer c pin).n ≤ 5) ∧
    (get_pwm_timer c pin).q = letterIndex (c.digitalPinToTimer pin) ∧
    (get_pwm_timer c pin).q ≤ 2 ∧
    ((get_pwm_timer c pin).n ≠ 2 → ∃ r, (get_pwm_timer c pin).ICRn = some r) ∧
    ((get_pwm_timer c pin).n = 2 → (get_pwm_timer c pin).ICRn = none) := by
  unfold get_pwm_timer
  cases ht : c.digitalPinToTimer pin <;> rw [ht] at h <;>
    simp only [hasTimerCase, Bool.and_eq_true, Bool.or_eq_true, Bool.not_eq_true',
      reduceCtorEq] at h <;>
    simp only [timerOfOutput, timerNumber, letterIndex] <;>
    (try split_ifs) <;> simp_all

/-- Instances of C15 on the sample board: pin 3 is on `TIMER3C` (timer 3,
channel 2, `ICR3` present), pin 9 on `TIMER2B` (timer 2, channel 1, no
`ICRn`). -/
theorem channel_mapping_witness :
    ((get_pwm_timer mega 3).n = 3 ∧ (get_pwm_timer mega 3).q = 2 ∧
      (get_pwm_timer mega 3).ICRn = some .ICR3) ∧
    ((get_pwm_timer mega 9).n = 2 ∧ (get_pwm_timer mega 9).q = 1 ∧
      (get_pwm_timer mega 9).ICRn = none) :=
  ⟨⟨(channel_mapping mega 3 (by decide)).1, (channel_mapping mega 3 (by decide)).2.2.1,
     by decide⟩,
   ⟨(channel_mapping mega 9 (by decide)).1, (channel_mapping mega 9 (by decide)).2.2.1,
     (channel_mapping mega 9 (by decide)).2.2.2.2.2 (by decide)⟩⟩

/-! ## The non-boundary path of `set_pwm_duty` -/

set_option maxHeartbeats 4000000 in
/-- The handles that the non-boundary path of `set_pwm_duty` dereferences are
present in every descriptor with `n ≠ 0`: the first control register, the
compare register of the channel, and the register TOP is read from; the
control register is none of the other two nor a byte after them, `q ≤ 2`, the
compare registers of the timers other than 2 are 16 bits wide, and on timer 2
without `USE_OCR2A_AS_TOP` the value of TOP is 255. -/
theorem duty_handles (c : Chip) (t : TimerOut) (hn : (timerOfOutput c t).n ≠ 0) :
    ∃ r0 rq, slot (timerOfOutput c t).TCCRnQ 0 = some r0 ∧
      slot (timerOfOutput c t).OCRnQ (timerOfOutput c t).q = some rq ∧ r0 ≠ rq ∧
      rq.highByte ≠ some r0 ∧
      (timerOfOutput c t).q ≤ 2 ∧
      ((timerOfOutput c t).n ≠ 2 → rq.highByte = none) ∧
      ∀ (s : HW) (x : Nat), ∃ top,
        readTop c (timerOfOutput c t) s = .ok top ∧
        readTop c (timerOfOutput c t) (s.store r0 x) = .ok top ∧ top < 65536 ∧
        ((timerOfOutput c t).n = 2 → c.USE_OCR2A_AS_TOP = false → top = 255) := by
  cases t <;> simp only [timerOfOutput] at hn ⊢ <;> (try split_ifs at hn ⊢) <;>
    (try (exfalso; exact hn rfl))
  all_goals refine ⟨_, _, rfl, rfl, by decide, by decide, by decide, by decide, fun s x => ?_⟩
  all_goals simp only [readTop, handle, slot, deref, HW.load16, Reg.highByte, HW.store, bind,
    Except.bind, pure, Except.pure]
  all_goals (try split_ifs)
  all_goals first
    | exact ⟨255, rfl, rfl, by norm_num, fun _ _ => rfl⟩
    | exact ⟨_, rfl, by simp [Function.update], by omega, fun h => absurd h (by decide)⟩
    | exact ⟨_, rfl, by simp [Function.update], by omega, fun _ h => by simp_all⟩

/-- The non-boundary path of `set_pwm_duty` on a supported pin: the compare
output mode bits are written into the first control register, TOP is read,
and the scaled value is stored by a 16-bit store at the compare register of
the channel; the only fault left is the division by `v_size`. -/
theorem set_pwm_duty_run (c : Chip) (pin : Int) (v v_size : Nat) (invert : Bool) (s : HW)
    (hn : (get_pwm_timer c pin).n ≠ 0) (hv0 : v ≠ 0) (hv : v ≠ v_size) :
    ∃ r0 rq top, slot (get_pwm_timer c pin).TCCRnQ 0 = some r0 ∧
      slot (get_pwm_timer c pin).OCRnQ (get_pwm_timer c pin).q = some rq ∧ r0 ≠ rq ∧
      rq.highByte ≠ some r0 ∧
      (get_pwm_timer c pin).q ≤ 2 ∧
      ((get_pwm_timer c pin).n ≠ 2 → rq.highByte = none) ∧
      readTop c (get_pwm_timer c pin) s = .ok top ∧ top < 65536 ∧
      ((get_pwm_timer c pin).n = 2 → c.USE_OCR2A_AS_TOP = false → top = 255) ∧
      set_pwm_duty c pin v v_size invert s =
        (scaleDuty v top v_size).map (fun (d : Nat) =>
          (⟨Function.update s.reg r0
              (comBits (comIndex c (get_pwm_timer c pin))
                (c.COM_CLEAR_SET + (if invert then 1 else 0)) (s.reg r0 % 256)),
            s.digitalWrites⟩ : HW).store16 rq (store16 (d : Int))) := by
  obtain ⟨r0, rq, h0, hq, hne, hnb, hq2, hw, htop⟩ := duty_handles c (c.digitalPinToTimer pin) hn
  obtain ⟨top, ht1, ht2, hlt, h255⟩ := htop s
    (comBits (comIndex c (get_pwm_timer c pin))
      (c.COM_CLEAR_SET + (if invert then 1 else 0)) (s.load8 r0))
  refine ⟨r0, rq, top, h0, hq, hne, hnb, hq2, hw, ht1, hlt, h255, ?_⟩
  change slot (get_pwm_timer c pin).TCCRnQ 0 = some r0 at h0
  change slot (get_pwm_timer c pin).OCRnQ (get_pwm_timer c pin).q = some rq at hq
  change readTop c (get_pwm_timer c pin) _ = _ at ht2
  unfold set_pwm_duty
  simp only [hv0, hv, hn, if_false, _SET_COMnQ, handle, h0, deref, bind, Except.bind, pure,
    Except.pure]
  unfold comIndex at ht2
  rw [ht2]
  simp only []
  cases hd : scaleDuty v top v_size with
  | error e => rfl
  | ok d =>
    simp only [_SET_OCRnQ, handle, hq, deref, bind, Except.bind, pure, Except.pure, Except.map,
      HW.store, HW.load8, comIndex]

/-! ## Division in the duty scaler -/

/-- C18 as stated fails: `v = 1`, `v_size = 0` reaches the non-boundary path
(`v ≠ 0`, `v ≠ v_size`) on pin 5 of the sample board, and the scaling divides by
`v_size = 0`. -/
theorem duty_divides_by_zero :
    (get_pwm_timer mega 5).n ≠ 0 ∧ (1 : Nat) ≠ 0 ∧ (1 : Nat) ≠ (0 : Nat) ∧
    scaleDuty 1 0 0 = .error .divByZero ∧
    (set_pwm_duty mega 5 1 0 false hw0).map (fun _ => ()) = .error .divByZero := by
  refine ⟨by decide, by decide, by decide, by decide, by decide⟩

/-- C18 (no division by zero in the duty scaler), amended: for every supported
pin and every pair `v ≤ v_size` that reaches the non-boundary path of
`set_pwm_duty` (`v ≠ 0` and `v ≠ v_size`), the divisor `v_size` is non-zero
and the call completes. -/
theorem duty_divisor_nonzero (c : Chip) (pin : Int) (v v_size : Nat) (invert : Bool) (s : HW)
    (hn : (get_pwm_timer c pin).n ≠ 0) (hv0 : v ≠ 0) (hv : v ≠ v_size) (hle : v ≤ v_size) :
    v_size ≠ 0 ∧ ∃ s', set_pwm_duty c pin v v_size invert s = .ok s' := by
  have hvs : v_size ≠ 0 := by omega
  refine ⟨hvs, ?_⟩
  obtain ⟨r0, rq, top, -, -, -, -, -, -, -, -, -, hrun⟩ :=
    set_pwm_duty_run c pin v v_size invert s hn hv0 hv
  rw [hrun]
  simp only [scaleDuty, hvs, if_false, Except.map]
  exact ⟨_, rfl⟩

/-- Instance of C18 (amended): `v = 100`, `v_size = 255` on pin 5 of the sample
board. -/
theorem duty_divisor_nonzero_witness :
    (255 : Nat) ≠ 0 ∧ ∃ s', set_pwm_duty mega 5 100 255 false hw0 = .ok s' :=
  duty_divisor_nonzero mega 5 100 255 false hw0 (by decide) (by decide) (by decide) (by decide)

/-! ## Bits written by the frequency path -/

set_option maxRecDepth 1000000 in
theorem wgmLow_bits_aux : ∀ x < 256, ∀ a < 4,
    ((x &&& not16 (0x3 <<< 0)) ||| (a <<< 0)) % 256 % 4 = a ∧
    ((x &&& not16 (0x3 <<< 0)) ||| (a <<< 0)) % 256 / 4 = x / 4 := by decide

set_option maxRecDepth 1000000 in
set_option maxHeartbeats 4000000 in
theorem csHigh_bits_aux : ∀ x < 256, ∀ a < 4, ∀ k < 8,
    ((((x &&& not16 (0x3 <<< 3)) ||| (a <<< 3)) % 256 % 256 &&& not16 (0x7 <<< 0)) |||
        (k <<< 0)) % 256 % 8 = k ∧
    ((((x &&& not16 (0x3 <<< 3)) ||| (a <<< 3)) % 256 % 256 &&& not16 (0x7 <<< 0)) |||
        (k <<< 0)) % 256 / 8 % 4 = a ∧
    ((((x &&& not16 (0x3 <<< 3)) ||| (a <<< 3)) % 256 % 256 &&& not16 (0x7 <<< 0)) |||
        (k <<< 0)) % 256 / 32 = x / 32 := by decide

/-- The first control register after `_SET_WGMnQ`: bits 0..1 hold `V & 3`, the
other bits are those read. -/
theorem wgmLow_bits (V x : Nat) :
    wgmLow V (x % 256) % 4 = V &&& 0x3 ∧ wgmLow V (x % 256) / 4 = x % 256 / 4 := by
  unfold wgmLow
  exact wgmLow_bits_aux (x % 256) (Nat.mod_lt _ (by norm_num)) (V &&& 0x3) (and3_lt V)

/-- The second control register after `_SET_WGMnQ` and `_SET_CSn`: bits 0..2
hold `J & 7`, bits 3..4 hold `(V >> 2) & 3`, bits 5..7 are those read. -/
theorem csHigh_bits (V J x : Nat) :
    csBits J (wgmHigh V (x % 256) % 256) % 8 = J &&& 0x7 ∧
    csBits J (wgmHigh V (x % 256) % 256) / 8 % 4 = (V >>> 2) &&& 0x3 ∧
    csBits J (wgmHigh V (x % 256) % 256) / 32 = x % 256 / 32 := by
  unfold csBits wgmHigh
  exact csHigh_bits_aux (x % 256) (Nat.mod_lt _ (by norm_num)) ((V >>> 2) &&& 0x3) (and3_lt _)
    (J &&& 0x7) (and7_lt J)

/-- The resolution found by the search lies in `[1, size]`. -/
theorem search_res_bounds {c : Chip} {n f : Nat} {b : Best} (h : search c n f = .ok b) :
    1 ≤ b.res ∧ b.res ≤ size n := by
  unfold search at h
  split_ifs at h with hf
  · simp only [bind, Except.bind] at h
    cases hs : seed c n with
    | error e => simp [hs] at h
    | ok f0 =>
      simp only [hs] at h
      refine foldlM_invariant (fun b => 1 ≤ b.res ∧ b.res ≤ size n) _ ?_ loopIndices
        ⟨f0, 255, 0, 1⟩ b ⟨by norm_num, size_ge n⟩ h
      intro b1 i b2 hb1 hstep
      rcases loopBody_ok hstep with ⟨_, rfl⟩ | ⟨cd, hcd, rfl⟩
      · exact hb1
      · have hr := resTemp_bounds (candAt_res hcd)
        rcases (adopt_spec c n f i b1 cd).1 with e | e | e <;> rw [e]
        · exact hb1
        · exact hr.1
        · exact hr.2
  · simp only [pure, Except.pure, Except.ok.injEq] at h
    subst h
    exact ⟨by norm_num, size_ge n⟩

/-- The prescaler index found by the search is 0 or one of the loop indices;
it is at most 7. -/
theorem search_j_le {c : Chip} {n f : Nat} {b : Best} (h : search c n f = .ok b) :
    b.j ≤ 7 := by
  unfold search at h
  split_ifs at h with hf
  · simp only [bind, Except.bind] at h
    cases hs : seed c n with
    | error e => simp [hs] at h
    | ok f0 =>
      simp only [hs] at h
      rcases (loop_best c n f loopIndices ⟨f0, 255, 0, 1⟩ b h).2.2 with
        e | ⟨i, hi, cn, -, e | e⟩
      · rw [e]
        exact Nat.zero_le _
      all_goals
        rw [e]
        simp only [loopIndices, List.mem_cons, List.mem_singleton, List.not_mem_nil,
          or_false] at hi
        show i ≤ 7
        omega
  · simp only [pure, Except.pure, Except.ok.injEq] at h
    subst h
    exact Nat.zero_le _

/-- The registers after a completed run of lines 243-250 on a descriptor of
`get_pwm_timer`: both control handles are present, the control registers hold
the values written, the 16-bit store of TOP leaves `res` in the TOP register
(its low byte when the register is 8 bits wide) and, at an 8-bit register, the
high byte of `res` in the register after it; every other register and the log
of `digitalWrite` calls are as before. -/
theorem program_regs {c : Chip} {t : TimerOut} {b : Best} {s s' : HW}
    (h : program c (timerOfOutput c t) b s = .ok s') :
    ∃ r0 r1, slot (timerOfOutput c t).TCCRnQ 0 = some r0 ∧
      slot (timerOfOutput c t).TCCRnQ 1 = some r1 ∧ r0 ≠ r1 ∧
      s'.reg r0 = wgmLow b.wgm (s.reg r0 % 256) ∧
      s'.reg r1 = csBits b.j (wgmHigh b.wgm (s.reg r1 % 256) % 256) ∧
      (∀ r, topHandle c (timerOfOutput c t) = some (some r) →
        r ≠ r0 ∧ r ≠ r1 ∧
        s'.reg r = (if r.highByte = none then (b.res % 65536).toNat
          else (b.res % 65536).toNat % 256) ∧
        ∀ r', r.highByte = some r' → s'.reg r' = (b.res % 65536).toNat / 256 % 256) ∧
      topHandle c (timerOfOutput c t) ≠ some none ∧
      (∀ r, r ≠ r0 → r ≠ r1 → topHandle c (timerOfOutput c t) ≠ some (some r) →
        (∀ rT, topHandle c (timerOfOutput c t) = some (some rT) → rT.highByte ≠ some r) →
        s'.reg r = s.reg r) ∧
      s'.digitalWrites = s.digitalWrites := by
  cases h0 : slot (timerOfOutput c t).TCCRnQ 0 with
  | none =>
    obtain ⟨e, he⟩ := program_null c _ b s (Or.inl h0)
    rw [he] at h
    cases h
  | some r0 =>
    cases h1 : slot (timerOfOutput c t).TCCRnQ 1 with
    | none =>
      obtain ⟨e, he⟩ := program_null c _ b s (Or.inr h1)
      rw [he] at h
      cases h
    | some r1 =>
      obtain ⟨hne, hT⟩ := handles_distinct_output c t r0 r1 h0 h1
      rw [program_eq h0 h1 hne] at h
      refine ⟨r0, r1, rfl, rfl, hne, ?_⟩
      cases ht : topHandle c (timerOfOutput c t) with
      | none =>
        simp only [ht, Except.ok.injEq] at h
        subst h
        refine ⟨?_, ?_, fun r hr => (by cases hr), (by simp), fun r n0 n1 _ _ => ?_, rfl⟩
        · simp [Function.update_noteq hne]
        · simp
        · simp [Function.update_noteq n0, Function.update_noteq n1]
      | some hh =>
        cases hh with
        | none => simp [ht] at h
        | some rT =>
          obtain ⟨n0, n1, m0, m1⟩ := hT rT ht
          simp only [ht, Except.ok.injEq] at h
          subst h
          refine ⟨?_, ?_, fun r hr => ?_, (by simp), fun r k0 k1 kT kH => ?_,
            store16_writes _ _ _⟩
          · rw [store16_reg]
            simp [m0, Ne.symm n0, Function.update_noteq hne]
          · rw [store16_reg]
            simp [m1, Ne.symm n1]
          · simp only [Option.some.injEq] at hr
            subst hr
            refine ⟨n0, n1, ?_, fun r' hr' => ?_⟩
            · rw [store16_reg]
              simp only [highByte_ne, if_false, if_true]
            · rw [store16_reg]
              simp only [hr', if_true]
          · have kT' : r ≠ rT := fun e => kT (by rw [e])
            have kH' : rT.highByte ≠ some r := kH rT rfl
            rw [store16_reg]
            simp [kH', kT', Function.update_noteq k0, Function.update_noteq k1]

set_option maxHeartbeats 4000000 in
/-- In a descriptor of `get_pwm_timer` with both control handles, the TOP
register is `ICRn` for the timers other than 2 and `OCR2A` for timer 2. -/
theorem top_register (c : Chip) (t : TimerOut) (r1 : Reg)
    (h1 : slot (timerOfOutput c t).TCCRnQ 1 = some r1) :
    ((timerOfOutput c t).n ≠ 2 → ∃ r, (timerOfOutput c t).ICRn = some r ∧
      topHandle c (timerOfOutput c t) = some (some r)) ∧
    ((timerOfOutput c t).n = 2 → c.USE_OCR2A_AS_TOP = true →
      topHandle c (timerOfOutput c t) = some (some .OCR2A)) ∧
    ((timerOfOutput c t).n = 2 → c.USE_OCR2A_AS_TOP = false →
      topHandle c (timerOfOutput c t) = none) := by
  cases t <;> simp only [timerOfOutput] at h1 ⊢ <;> (try split_ifs at h1 ⊢) <;>
    simp only [noTimer, slot, reduceCtorEq] at h1
  all_goals simp_all [topHandle, slot]

/-! ## Register programming -/

/-- The registers after a completed `set_pwm_frequency` on a supported pin,
with `wgm`, `j`, `res` the values found by the search: bits 0..1 of the first
control register hold `wgm & 3`, bits 3..4 of the second hold `(wgm >> 2) & 3`,
bits 0..2 of the second hold `j` (at most 7), and the TOP register (`ICRn` for
the timers other than 2, `OCR2A` for timer 2 when it is used as TOP) holds
`res`; the other bits of both control registers and the log of `digitalWrite`
calls are unchanged, and so is every register that is neither a control
register, nor the TOP register, nor the byte after an 8-bit TOP register. -/
theorem frequency_registers (c : Chip) (pin : Int) (f : Nat) (s s' : HW)
    (hn : (get_pwm_timer c pin).n ≠ 0) (h : set_pwm_frequency c pin f s = .ok s') :
    ∃ b r0 r1, search c (get_pwm_timer c pin).n f = .ok b ∧
      slot (get_pwm_timer c pin).TCCRnQ 0 = some r0 ∧
      slot (get_pwm_timer c pin).TCCRnQ 1 = some r1 ∧
      b.j ≤ 7 ∧
      s'.reg r0 % 4 = b.wgm &&& 0x3 ∧
      s'.reg r1 / 8 % 4 = (b.wgm >>> 2) &&& 0x3 ∧
      s'.reg r1 % 8 = b.j ∧
      ((get_pwm_timer c pin).n ≠ 2 →
        ∃ r, (get_pwm_timer c pin).ICRn = some r ∧ (s'.reg r : Int) = b.res) ∧
      ((get_pwm_timer c pin).n = 2 → c.USE_OCR2A_AS_TOP = true →
        (s'.reg .OCR2A : Int) = b.res ∧ s'.reg .OCR2B = 0) ∧
      s'.reg r0 / 4 = s.reg r0 % 256 / 4 ∧
      s'.reg r1 / 32 = s.reg r1 % 256 / 32 ∧
      (∀ r, r ≠ r0 → r ≠ r1 → topHandle c (get_pwm_timer c pin) ≠ some (some r) →
        (∀ rT, topHandle c (get_pwm_timer c pin) = some (some rT) → rT.highByte ≠ some r) →
        s'.reg r = s.reg r) ∧
      s'.digitalWrites = s.digitalWrites := by
  unfold set_pwm_frequency at h
  simp only [hn, if_false, bind, Except.bind] at h
  cases hs : search c (get_pwm_timer c pin).n f with
  | error e => simp [hs] at h
  | ok b =>
    simp only [hs] at h
    obtain ⟨r0, r1, h0, h1, -, e0, e1, hT, -, hfr, hdw⟩ :=
      program_regs (t := c.digitalPinToTimer pin) h
    obtain ⟨t1, t2, -⟩ := top_register c (c.digitalPinToTimer pin) r1 h1
    obtain ⟨hb1, hb2⟩ := search_res_bounds hs
    have hj := search_j_le hs
    have hsz : size (get_pwm_timer c pin).n ≤ 65535 := by
      unfold size
      split_ifs <;> omega
    have hval : ((b.res % 65536).toNat : Int) = b.res := by omega
    have hj7 : b.j &&& 0x7 = b.j := by
      have := Nat.and_pow_two_sub_one_eq_mod b.j 3
      simp only [Nat.reducePow, Nat.add_one_sub_one] at this
      rw [this]
      exact Nat.mod_eq_of_lt (by omega)
    obtain ⟨w1, w2⟩ := wgmLow_bits b.wgm (s.reg r0)
    obtain ⟨k1, k2, k3⟩ := csHigh_bits b.wgm b.j (s.reg r1)
    refine ⟨b, r0, r1, rfl, h0, h1, hj, ?_, ?_, ?_, ?_, ?_, ?_, ?_, hfr, hdw⟩
    · rw [e0]
      exact w1
    · rw [e1]
      exact k2
    · rw [e1, k1, hj7]
    · intro h2
      obtain ⟨r, hr, htop⟩ := t1 h2
      refine ⟨r, hr, ?_⟩
      rw [(hT r htop).2.2.1, if_pos (icr_wide c _ r hr), hval]
    · intro h2 hu
      have h255 : b.res ≤ 255 := by
        have := hb2
        simp only [size, h2, if_true] at this
        exact this
      obtain ⟨-, -, x1, x2⟩ := hT _ (t2 h2 hu)
      constructor
      · rw [x1]
        simp only [Reg.highByte, reduceCtorEq, if_false]
        omega
      · rw [x2 .OCR2B rfl]
        omega
    · rw [e0]
      exact w2
    · rw [e1]
      exact k3

set_option maxRecDepth 1000000 in
/-- C11 (register programming), evaluated on the code: on the sample board with
`USE_OCR2A_AS_TOP`, pin 9 is on `TIMER2B`, a descriptor of timer 2 whose TOP
register is `OCR2A`, reached through `(uint16_t*)&OCR2A`; the compare register
`OCR2B` of channel B is the byte after it and is not used as TOP.  From a
state with `OCR2B = 77`, `set_pwm_frequency(pin, 65535)` completes with
`res = 243`: the 16-bit store of TOP leaves 243 in `OCR2A` and the high byte 0
in `OCR2B`; `set_pwm_frequency(pin, 0)` leaves 255 and 0.  On pin 5
(`TIMER3A`) the same calls leave the compare registers as they were. -/
theorem top_store_overwrites_compare :
    (get_pwm_timer megaTop 9).n = 2 ∧
    topHandle megaTop (get_pwm_timer megaTop 9) = some (some .OCR2A) ∧
    slot (get_pwm_timer megaTop 9).OCRnQ 1 = some .OCR2B ∧
    Reg.highByte .OCR2A = some .OCR2B ∧
    (search megaTop 2 65535).map (fun b => (b.res, b.j, b.wgm)) = .ok (243, 1, 7) ∧
    (⟨fun r => if r = .OCR2B then 77 else 0, []⟩ : HW).reg .OCR2B = 77 ∧
    (set_pwm_frequency megaTop 9 65535 ⟨fun r => if r = .OCR2B then 77 else 0, []⟩).map
      (fun s => (s.reg .TCCR2A, s.reg .TCCR2B, s.reg .OCR2A, s.reg .OCR2B))
        = .ok (3, 9, 243, 0) ∧
    (set_pwm_frequency megaTop 9 0 ⟨fun r => if r = .OCR2B then 77 else 0, []⟩).map
      (fun s => (s.reg .OCR2A, s.reg .OCR2B)) = .ok (255, 0) ∧
    (set_pwm_frequency megaTop 5 65535 ⟨fun r => if r = .OCR3B then 77 else 0, []⟩).map
      (fun s => (s.reg .OCR3A, s.reg .OCR3B, s.reg .OCR3C)) = .ok (0, 77, 0) := by
  refine ⟨by decide, by decide, by decide, by decide, by decide, by decide, by decide,
    by decide, by decide⟩

set_option maxRecDepth 1000000 in
/-- The 16-bit accesses at the 8-bit compare registers of timer 2 on the duty
path.  On pin 10 of the sample board (`TIMER2A`) the store of the compare value
at `OCR2A` leaves 0 in `OCR2B`, which held 77.  On pin 9 with
`USE_OCR2A_AS_TOP` (`TIMER2B`) the load of TOP at `OCR2A` takes `OCR2B` as its
high byte: with `OCR2A = 255` a first `set_pwm_duty(pin, 128, 255)` stores 128
in `OCR2B` and a second, identical call stores 192. -/
theorem wide_access_on_duty_path :
    (set_pwm_duty mega 10 128 255 false ⟨fun r => if r = .OCR2B then 77 else 0, []⟩).map
      (fun s => (s.reg .OCR2A, s.reg .OCR2B)) = .ok (128, 0) ∧
    (set_pwm_duty megaTop 9 128 255 false ⟨fun r => if r = .OCR2A then 255 else 0, []⟩).map
      (fun s => s.reg .OCR2B) = .ok 128 ∧
    (set_pwm_duty megaTop 9 128 255 false ⟨fun r => if r = .OCR2A then 255 else 0, []⟩ >>=
        set_pwm_duty megaTop 9 128 255 false).map
      (fun s => s.reg .OCR2B) = .ok 192 := by
  refine ⟨by decide, by decide, by decide⟩

/-! ## Registers shared by the duty path and the frequency path -/

set_option maxRecDepth 1000000 in
set_option maxHeartbeats 4000000 in
theorem comBits_aux : ∀ x < 256, ∀ Q < 3, ∀ W < 4,
    comBits Q W x % 2 ^ (6 - 2 * Q) = x % 2 ^ (6 - 2 * Q) ∧
    comBits Q W x / 2 ^ (8 - 2 * Q) = x / 2 ^ (8 - 2 * Q) ∧
    comBits Q W x / 2 ^ (6 - 2 * Q) % 4 = W := by decide

set_option maxHeartbeats 4000000 in
/-- In a descriptor of `get_pwm_timer` with both control handles, the compare
register of the channel and the byte after it (when it is 8 bits wide) are
neither the second control register nor the TOP register; the byte after the
TOP register is not the byte after the compare register, and it is the compare
register itself only on timer 2 with `USE_OCR2A_AS_TOP`, where `OCR2B` lies
after `OCR2A`. -/
theorem compare_not_frequency (c : Chip) (t : TimerOut) (r1 rq : Reg)
    (h1 : slot (timerOfOutput c t).TCCRnQ 1 = some r1)
    (hq : slot (timerOfOutput c t).OCRnQ (timerOfOutput c t).q = some rq) :
    rq ≠ r1 ∧ rq.highByte ≠ some r1 ∧
    topHandle c (timerOfOutput c t) ≠ some (some rq) ∧
    (∀ rT, topHandle c (timerOfOutput c t) = some (some rT) →
      rq.highByte ≠ some rT ∧
      (rT.highByte ≠ none → rT.highByte ≠ rq.highByte) ∧
      (rT.highByte = some rq →
        (timerOfOutput c t).n = 2 ∧ c.USE_OCR2A_AS_TOP = true ∧ rq = .OCR2B)) := by
  cases t <;> simp only [timerOfOutput] at h1 hq ⊢ <;> (try split_ifs at h1 hq ⊢) <;>
    simp only [noTimer, slot, Option.some.injEq, reduceCtorEq] at h1 hq
  all_goals subst h1 hq
  all_goals refine ⟨by decide, by decide, ?_, ?_⟩
  all_goals first
    | (intro rT hT
       simp only [topHandle, slot] at hT
       split_ifs at hT
       all_goals simp only [Option.some.injEq, reduceCtorEq] at hT
       all_goals (try subst hT)
       all_goals first
         | decide
         | exact ⟨by decide, by decide, fun _ => ⟨rfl, by assumption, rfl⟩⟩
         | simp_all [Reg.highByte])
    | (simp only [topHandle, slot]
       (try split_ifs)
       all_goals first
         | omega
         | simp)

set_option maxRecDepth 1000000 in
/-- C13 as stated fails: on pin 5 of the sample board (`TIMER3A`), starting from
the all-zero state, `set_pwm_frequency(pin, 40961)` leaves 2 in `TCCR3A` and
the non-boundary `set_pwm_duty(pin, 100, 255, false)` leaves 128 in `TCCR3A`;
both paths write the first control register.  On pin 9 of the board with
`USE_OCR2A_AS_TOP` (`TIMER2B`), from a state with `OCR2A = 255` and
`OCR2B = 77`, both paths also write `OCR2B`: the 16-bit store of TOP at `OCR2A`
leaves 0 in it, the duty path leaves 38. -/
theorem duty_and_mode_share_a_register :
    slot (get_pwm_timer mega 5).TCCRnQ 0 = some .TCCR3A ∧ hw0.reg .TCCR3A = 0 ∧
    (set_pwm_frequency mega 5 40961 hw0).map (fun s => s.reg .TCCR3A) = .ok 2 ∧
    (set_pwm_duty mega 5 100 255 false hw0).map (fun s => s.reg .TCCR3A) = .ok 128 ∧
    (set_pwm_frequency megaTop 9 0
        ⟨fun r => if r = .OCR2A then 255 else if r = .OCR2B then 77 else 0, []⟩).map
      (fun s => s.reg .OCR2B) = .ok 0 ∧
    (set_pwm_duty megaTop 9 128 255 false
        ⟨fun r => if r = .OCR2A then 255 else if r = .OCR2B then 77 else 0, []⟩).map
      (fun s => s.reg .OCR2B) = .ok 38 := by
  refine ⟨by decide, by decide, by decide, by decide, by decide, by decide⟩

/-- C13 (register separation), amended: on a supported pin both paths write
the first control register, in disjoint bit fields: a completed
`set_pwm_frequency` leaves its bits 2..7 as they were, and a completed
non-boundary `set_pwm_duty` leaves all of its bits outside the two bits at
position `6 - 2 * q` (which is at least 2) as they were; every other register
is left unchanged by at least one of the two calls, except `OCR2B` on timer 2
with `USE_OCR2A_AS_TOP`, which lies in the second byte of the 16-bit store of
TOP at `OCR2A`.  This is for a two-bit `COM_CLEAR_SET` and for the descriptors
on which line 268 passes the index `q` (not `q = 2` under `HAS_TCCR2`). -/
theorem duty_mode_separation (c : Chip) (pin : Int) (f v v_size : Nat) (invert : Bool)
    (s1 s1' s2 s2' : HW)
    (hn : (get_pwm_timer c pin).n ≠ 0) (hv0 : v ≠ 0) (hv : v ≠ v_size)
    (hq : c.HAS_TCCR2 = true → (get_pwm_timer c pin).q ≠ 2) (hcom : c.COM_CLEAR_SET ≤ 2)
    (hf : set_pwm_frequency c pin f s1 = .ok s1')
    (hd : set_pwm_duty c pin v v_size invert s2 = .ok s2') :
    ∃ r0, slot (get_pwm_timer c pin).TCCRnQ 0 = some r0 ∧
      s1'.reg r0 / 4 = s1.reg r0 % 256 / 4 ∧
      s2'.reg r0 % 2 ^ (6 - 2 * (get_pwm_timer c pin).q)
        = s2.reg r0 % 256 % 2 ^ (6 - 2 * (get_pwm_timer c pin).q) ∧
      s2'.reg r0 / 2 ^ (8 - 2 * (get_pwm_timer c pin).q)
        = s2.reg r0 % 256 / 2 ^ (8 - 2 * (get_pwm_timer c pin).q) ∧
      2 ≤ 6 - 2 * (get_pwm_timer c pin).q ∧
      ∀ r, r ≠ r0 →
        ¬ ((get_pwm_timer c pin).n = 2 ∧ c.USE_OCR2A_AS_TOP = true ∧ r = .OCR2B) →
        s1'.reg r = s1.reg r ∨ s2'.reg r = s2.reg r := by
  -- the frequency path
  unfold set_pwm_frequency at hf
  simp only [hn, if_false, bind, Except.bind] at hf
  cases hs : search c (get_pwm_timer c pin).n f with
  | error e => simp [hs] at hf
  | ok b =>
    simp only [hs] at hf
    obtain ⟨r0, r1, h0, h1, -, e0, -, -, -, hfr, -⟩ :=
      program_regs (t := c.digitalPinToTimer pin) hf
    -- the duty path
    obtain ⟨r0', rq, top, h0', hrq, hne, hnb, hq2, -, -, -, -, hrun⟩ :=
      set_pwm_duty_run c pin v v_size invert s2 hn hv0 hv
    have hr0 : r0' = r0 := Option.some.inj (h0'.symm.trans h0)
    subst hr0
    obtain ⟨c1, c2, c3, c4⟩ := compare_not_frequency c (c.digitalPinToTimer pin) r1 rq h1 hrq
    have hidx : comIndex c (get_pwm_timer c pin) = (get_pwm_timer c pin).q := by
      unfold comIndex
      cases hh : c.HAS_TCCR2 with
      | false => simp
      | true => simp [hq hh]
    rw [hrun, hidx] at hd
    cases hsd : scaleDuty v top v_size with
    | error e => simp [hsd, Except.map] at hd
    | ok d =>
      simp only [hsd, Except.map, Except.ok.injEq] at hd
      subst hd
      have hW : c.COM_CLEAR_SET + (if invert = true then 1 else 0) < 4 := by
        split_ifs <;> omega
      obtain ⟨a1, a2, -⟩ := comBits_aux (s2.reg r0' % 256) (Nat.mod_lt _ (by norm_num))
        (get_pwm_timer c pin).q (by omega) _ hW
      have hr0' : ∀ (t : HW) (w : Nat), (t.store16 rq w).reg r0' = t.reg r0' := by
        intro t w
        rw [store16_reg]
        simp only [hnb, if_false, hne]
      refine ⟨r0', h0', ?_, ?_, ?_, by omega, ?_⟩
      · rw [e0]
        exact (wgmLow_bits b.wgm (s1.reg r0')).2
      · simp only [hr0', Function.update_same]
        exact a1
      · simp only [hr0', Function.update_same]
        exact a2
      · intro r hr hex
        by_cases hrq' : r = rq
        · subst hrq'
          refine Or.inl (hfr r hr c1 c3 (fun rT hT hb => hex ?_))
          exact (c4 rT hT).2.2 hb
        · by_cases hrh : rq.highByte = some r
          · refine Or.inl (hfr r hr ?_ ?_ (fun rT hT hb => ?_))
            · intro e
              exact c2 (by rw [hrh, e])
            · intro hT
              exact (c4 r hT).1 hrh
            · exact (c4 rT hT).2.1 (by rw [hb]; exact Option.some_ne_none _) (by rw [hb, hrh])
          · refine Or.inr ?_
            rw [store16_reg]
            simp only [hrh, if_false, hrq', Function.update_noteq hr]

/-- Instance of C13 (amended) on pin 9 of the sample board with
`USE_OCR2A_AS_TOP` (`TIMER2B`): both calls complete from the all-zero state;
`set_pwm_frequency` leaves bits 2..7 of `TCCR2A` as they were, `OCR2B` is the
only exception, and the byte after `OCR2B`, which the duty path writes, is
left unchanged by the frequency path. -/
theorem duty_mode_separation_witness :
    ∃ s1' s2', set_pwm_frequency megaTop 9 65535 hw0 = .ok s1' ∧
      set_pwm_duty megaTop 9 100 255 false hw0 = .ok s2' ∧
      ∃ r0, slot (get_pwm_timer megaTop 9).TCCRnQ 0 = some r0 ∧
        s1'.reg r0 / 4 = hw0.reg r0 % 256 / 4 ∧
        (∀ r, r ≠ r0 →
          ¬ ((get_pwm_timer megaTop 9).n = 2 ∧ megaTop.USE_OCR2A_AS_TOP = true ∧ r = .OCR2B) →
          s1'.reg r = hw0.reg r ∨ s2'.reg r = hw0.reg r) := by
  have hok1 : (set_pwm_frequency megaTop 9 65535 hw0).toBool = true := by decide
  have hok2 : (set_pwm_duty megaTop 9 100 255 false hw0).toBool = true := by decide
  cases h1 : set_pwm_frequency megaTop 9 65535 hw0 with
  | error e => simp [h1, Except.toBool] at hok1
  | ok s1' =>
    cases h2 : set_pwm_duty megaTop 9 100 255 false hw0 with
    | error e => simp [h2, Except.toBool] at hok2
    | ok s2' =>
      obtain ⟨r0, h0, a, -, -, -, fr⟩ :=
        duty_mode_separation megaTop 9 65535 100 255 false hw0 s1' hw0 s2' (by decide)
          (by decide) (by decide) (by decide) (by decide) h1 h2
      exact ⟨s1', s2', rfl, rfl, r0, h0, a, fr⟩

/-! ## The duty path where line 268 passes the index `q` -/

/-- On the descriptors on which line 268 passes the index `q` (not `q = 2`
under `HAS_TCCR2`) and the TOP value is not read by a 16-bit load at the 8-bit
`OCR2A` (not timer 2 with `USE_OCR2A_AS_TOP`), for a two-bit `COM_CLEAR_SET`
and 16-bit `0 < v < v_size`, `set_pwm_duty` completes, stores
`v * top / v_size` (at most `top`) in the compare register of the channel, and
sets the two bits at position `6 - 2 * q` of the first control register to
`COM_CLEAR_SET + invert`. -/
theorem duty_scaling_exact (c : Chip) (pin : Int) (v v_size : Nat) (invert : Bool) (s : HW)
    (hn : (get_pwm_timer c pin).n ≠ 0) (hv0 : 0 < v) (hv : v < v_size) (h16 : v_size < 65536)
    (hq : c.HAS_TCCR2 = true → (get_pwm_timer c pin).q ≠ 2) (hcom : c.COM_CLEAR_SET ≤ 2)
    (h8 : (get_pwm_timer c pin).n = 2 → c.USE_OCR2A_AS_TOP = false) :
    ∃ s' r0 rq top, set_pwm_duty c pin v v_size invert s = .ok s' ∧
      readTop c (get_pwm_timer c pin) s = .ok top ∧
      slot (get_pwm_timer c pin).TCCRnQ 0 = some r0 ∧
      slot (get_pwm_timer c pin).OCRnQ (get_pwm_timer c pin).q = some rq ∧
      s'.reg rq = v * top / v_size ∧ v * top / v_size ≤ top ∧
      s'.reg r0 / 2 ^ (6 - 2 * (get_pwm_timer c pin).q) % 4
        = c.COM_CLEAR_SET + (if invert then 1 else 0) := by
  obtain ⟨r0, rq, top, h0, hrq, hne, hnb, hq2, hw, htop, hlt, h255, hrun⟩ :=
    set_pwm_duty_run c pin v v_size invert s hn (by omega) (by omega)
  have hidx : comIndex c (get_pwm_timer c pin) = (get_pwm_timer c pin).q := by
    unfold comIndex
    cases hh : c.HAS_TCCR2 with
    | false => simp
    | true => simp [hq hh]
  have hvs : v_size ≠ 0 := by omega
  have hprod : v * top % 4294967296 = v * top := by
    apply Nat.mod_eq_of_lt
    calc v * top < 65536 * 65536 := Nat.mul_lt_mul'' (by omega) hlt
      _ = 4294967296 := by norm_num
  have hle : v * top / v_size ≤ top := by
    calc v * top / v_size ≤ v_size * top / v_size :=
          Nat.div_le_div_right (Nat.mul_le_mul_right top (by omega))
      _ = top := Nat.mul_div_cancel_left top (by omega)
  have hmod : v * top / v_size % 65536 = v * top / v_size := Nat.mod_eq_of_lt (by omega)
  have hW : c.COM_CLEAR_SET + (if invert = true then 1 else 0) < 4 := by
    split_ifs <;> omega
  obtain ⟨-, -, a3⟩ := comBits_aux (s.reg r0 % 256) (Nat.mod_lt _ (by norm_num))
    (get_pwm_timer c pin).q (by omega) _ hW
  have hfit : v * top / v_size < 256 ∨ rq.highByte = none := by
    by_cases h2 : (get_pwm_timer c pin).n = 2
    · have := h255 h2 (h8 h2)
      exact Or.inl (by omega)
    · exact Or.inr (hw h2)
  rw [hidx] at hrun
  simp only [scaleDuty, hvs, if_false, hprod, hmod, Except.map] at hrun
  refine ⟨_, r0, rq, top, hrun, htop, h0, hrq, ?_, hle, ?_⟩
  · have hm : store16 ((v * top / v_size : Nat) : Int) = v * top / v_size := by
      rw [mask16]
      omega
    rw [hm]
    exact store16_self _ _ _ hfit
  · rw [store16_reg]
    simp only [hnb, if_false, hne, Function.update_same]
    exact a3

end FastPWM
